import Mathlib

/-!
Verification of the persistence abstraction layer of Portal-Upravnik
(`storageUtils.js`): the generic localStorage load/save adapter, the
per-entity key builders, and the entity accessors (dues, opening balance,
read maps, ...). JavaScript values are shallowly embedded as `JVal`,
JSON.parse / JSON.stringify as an executable codec, and the localStorage
backend as a string map together with a write-failure flag (quota
exhaustion surfaces as a thrown exception from `setItem`).
-/

/-- JavaScript number domain: NaN, signed infinities, and finite decimals
`m / 10^e` (every finite IEEE double is such a decimal rational; the
representation keeps the printed form, so `1.50` is `dec 150 2`). -/
inductive JNum where
  | nan : JNum
  | inf (neg : Bool) : JNum
  | dec (m : Int) (e : Nat) : JNum
deriving DecidableEq, Repr

/-- JavaScript values as this program handles them (undefined never
appears in parsed JSON, and the repository never stores it). Objects are
ordered association lists, as produced by `JSON.parse`. `jarrp` is an
array carrying named properties — arrays are objects in the source's
sloppy-mode scripts, so `data.monthlyFee = …` on a parsed array attaches
a property; `JSON.parse` itself never yields `jarrp` (a freshly parsed
array has no named properties), and `JSON.stringify` and the
string/number coercions ignore the named properties, exactly as JS does. -/
inductive JVal where
  | jnull : JVal
  | jbool (b : Bool) : JVal
  | jnum (n : JNum) : JVal
  | jstr (s : String) : JVal
  | jarr (xs : List JVal) : JVal
  | jobj (fs : List (String × JVal)) : JVal
  | jarrp (xs : List JVal) (props : List (String × JVal)) : JVal
deriving Repr

/-- The finite JS number `n`, as an exact rational (`dec m e = m / 10^e`). -/
def JNum.toQ : JNum → Option ℚ
  | .nan => none
  | .inf _ => none
  | .dec m e => some ((m : ℚ) / (10 : ℚ) ^ e)

/-- Finiteness of a JS number (`Number.isFinite`). -/
def JNum.isFinite : JNum → Bool
  | .dec _ _ => true
  | _ => false

/-- JS boolean coercion of a number: `NaN` and `0` (any `0.00…`) are falsy. -/
def JNum.truthy : JNum → Bool
  | .nan => false
  | .inf _ => true
  | .dec m _ => m != 0

/-- JS boolean coercion (`Boolean(v)`): null, false, 0, NaN and the empty
string are falsy; every array and object is truthy. -/
def JVal.truthy : JVal → Bool
  | .jnull => false
  | .jbool b => b
  | .jnum n => n.truthy
  | .jstr s => !s.isEmpty
  | .jarr _ => true
  | .jobj _ => true
  | .jarrp _ _ => true

/-- `v == jnull` test (the `=== null` checks of the source). -/
def JVal.isNull : JVal → Bool
  | .jnull => true
  | _ => false

/-! ### Decimal digit printing -/

/-- Least-significant-first base-10 digits, by fuel (structural, so the
kernel can evaluate it; `natDigitsL` is proved equal to `Nat.digits 10`). -/
def natDigitsAux : Nat → Nat → List Nat
  | 0, _ => []
  | _ + 1, 0 => []
  | f + 1, n => n % 10 :: natDigitsAux f (n / 10)

/-- Least-significant-first base-10 digits of `n`. -/
def natDigitsL (n : Nat) : List Nat := natDigitsAux n n

/-- Most-significant-first decimal digits of a natural number (`"0"` for 0). -/
def natChars (n : Nat) : List Char :=
  if n = 0 then ['0']
  else ((natDigitsL n).map fun d => Char.ofNat (48 + d)).reverse

/-- Print the finite decimal `m / 10^e` the way JS prints the
corresponding stored digits: sign, integer part, and — when `e > 0` — a
point followed by exactly `e` fraction digits. -/
def decChars (m : Int) (e : Nat) : List Char :=
  let sign : List Char := if m < 0 then ['-'] else []
  let ds := natChars m.natAbs
  if e = 0 then sign ++ ds
  else
    let ds' := List.replicate (e + 1 - ds.length) '0' ++ ds
    sign ++ ds'.take (ds'.length - e) ++ '.' :: ds'.drop (ds'.length - e)

/-- `String(n)` for a JS number. -/
def JNum.toChars : JNum → List Char
  | .nan => "NaN".data
  | .inf true => "-Infinity".data
  | .inf false => "Infinity".data
  | .dec m e => decChars m e

/-! ### String coercion (`String(v)`, `Array.prototype.join`) -/

mutual
/-- JS string coercion `String(v)`: arrays join their elements with commas
(null elements become the empty string), plain objects print as
`"[object Object]"`. -/
def JVal.toStr : JVal → List Char
  | .jnull => "null".data
  | .jbool true => "true".data
  | .jbool false => "false".data
  | .jnum n => n.toChars
  | .jstr s => s.data
  | .jarr xs => joinChars xs
  | .jobj _ => "[object Object]".data
  | .jarrp xs _ => joinChars xs

/-- `Array.prototype.toString` = `join(",")`; null/undefined elements
contribute the empty string. -/
def joinChars : List JVal → List Char
  | [] => []
  | [x] => elemChars x
  | x :: y :: xs => elemChars x ++ ',' :: joinChars (y :: xs)

/-- One array element inside `join`. -/
def elemChars : JVal → List Char
  | .jnull => []
  | v => JVal.toStr v
end

/-! ### Numeric coercion (`Number(v)`) -/

/-- JS whitespace for `Number(string)` trimming. -/
def isWsChar (c : Char) : Bool :=
  c = ' ' || c = '\t' || c = '\n' || c = '\r' || c = Char.ofNat 12 || c = Char.ofNat 11

/-- Decimal digit test. -/
def isDigitChar (c : Char) : Bool := 48 ≤ c.toNat && c.toNat ≤ 57

/-- Split a leading run of decimal digits. -/
def spanDigits : List Char → List Char × List Char
  | [] => ([], [])
  | c :: cs =>
    if isDigitChar c then
      let (ds, rest) := spanDigits cs
      (c :: ds, rest)
    else ([], c :: cs)

/-- Numeric value of most-significant-first digit characters. -/
def digitsVal (ds : List Char) : Nat :=
  ds.foldl (fun acc c => 10 * acc + (c.toNat - 48)) 0

/-- Mantissa/scale after applying a decimal exponent `k` to `m / 10^e`. -/
def applyExp (m : Int) (e : Nat) (k : Int) : Int × Nat :=
  if k ≥ 0 then
    let k' := k.toNat
    if k' ≤ e then (m, e - k') else (m * (10 : Int) ^ (k' - e), 0)
  else (m, e + (-k).toNat)

/-- Parse the body of a JS string numeric literal (sign already consumed):
`Infinity`, or `digits [. digits] [(e|E) [sign] digits]` with at least one
digit. Returns the decimal `(m, e)` with `m ≥ 0`. Hex/octal/binary
literals are not modelled (never produced or stored by this repository). -/
def numBody (cs : List Char) : Option (Nat × Nat) :=
  if cs = "Infinity".data then none  -- handled by the caller
  else
    let (ip, r1) := spanDigits cs
    match r1 with
    | '.' :: r2 =>
      let (fp, r3) := spanDigits r2
      if ip = [] && fp = [] then none
      else
        match r3 with
        | [] => some (digitsVal ip * 10 ^ fp.length + digitsVal fp, fp.length)
        | _ => expPart (digitsVal ip * 10 ^ fp.length + digitsVal fp) fp.length r3
    | [] => if ip = [] then none else some (digitsVal ip, 0)
    | _ => if ip = [] then none else expPart (digitsVal ip) 0 r1

where
  /-- Optional exponent tail; anything else fails. -/
  expPart (m : Nat) (e : Nat) : List Char → Option (Nat × Nat)
    | 'e' :: r | 'E' :: r =>
      let (sgn, r') : Bool × List Char :=
        match r with
        | '-' :: r' => (true, r')
        | '+' :: r' => (false, r')
        | _ => (false, r)
      let (ds, r'') := spanDigits r'
      if ds = [] ∨ r'' ≠ [] then none
      else
        let k : Int := if sgn then -(digitsVal ds : Int) else (digitsVal ds : Int)
        let (m', e') := applyExp (m : Int) e k
        some (m'.toNat, e')
    | _ => none

/-- `Number(s)` for a string `s`: trim whitespace, empty gives `0`,
`[+|-]Infinity` gives an infinity, a decimal numeral gives its value,
anything else gives `NaN`. -/
def strToNum (s : String) : JNum :=
  let t := (s.data.dropWhile isWsChar).reverse.dropWhile isWsChar |>.reverse
  match t with
  | [] => .dec 0 0
  | _ =>
    let (neg, body) : Bool × List Char :=
      match t with
      | '-' :: r => (true, r)
      | '+' :: r => (false, r)
      | _ => (false, t)
    if body = "Infinity".data then .inf neg
    else
      match numBody body with
      | some (m, e) => .dec (if neg then -(m : Int) else (m : Int)) e
      | none => .nan

/-- JS numeric coercion `Number(v)`: null is 0, booleans are 0/1, strings
parse as numeric literals, arrays coerce through their joined string,
plain objects are NaN. -/
def JVal.toNumber : JVal → JNum
  | .jnull => .dec 0 0
  | .jbool true => .dec 1 0
  | .jbool false => .dec 0 0
  | .jnum n => n
  | .jstr s => strToNum s
  | .jarr xs => strToNum ⟨joinChars xs⟩
  | .jobj _ => .nan
  | .jarrp xs _ => strToNum ⟨joinChars xs⟩

/-! ### JSON.stringify -/

/-- Lowercase hex digit. -/
def hexDig (n : Nat) : Char :=
  if n < 10 then Char.ofNat (48 + n) else Char.ofNat (87 + n)

/-- JSON.stringify escaping of one string character: quote, backslash,
the five short control escapes, `\u00XX` for other control characters,
everything else verbatim. -/
def escChar (c : Char) : List Char :=
  if c = '"' then ['\\', '"']
  else if c = '\\' then ['\\', '\\']
  else if c = Char.ofNat 8 then ['\\', 'b']
  else if c = '\t' then ['\\', 't']
  else if c = '\n' then ['\\', 'n']
  else if c = Char.ofNat 12 then ['\\', 'f']
  else if c = '\r' then ['\\', 'r']
  else if c.toNat < 32 then ['\\', 'u', '0', '0', hexDig (c.toNat / 16), hexDig (c.toNat % 16)]
  else [c]

/-- Escape a whole string body. -/
def escStr : List Char → List Char
  | [] => []
  | c :: cs => escChar c ++ escStr cs

/-- A JSON string literal: quote, escaped body, quote. -/
def quoteStr (s : String) : List Char :=
  '"' :: escStr s.data ++ ['"']

/-- JSON number output: non-finite numbers serialize as `null`. -/
def numJson : JNum → List Char
  | .nan => "null".data
  | .inf _ => "null".data
  | .dec m e => decChars m e

mutual
/-- `JSON.stringify(v)` (no indentation), as a character list. -/
def jsonChars : JVal → List Char
  | .jnull => "null".data
  | .jbool true => "true".data
  | .jbool false => "false".data
  | .jnum n => numJson n
  | .jstr s => quoteStr s
  | .jarr [] => ['[', ']']
  | .jarr (x :: xs) => '[' :: jsonChars x ++ jsonTail xs
  | .jobj [] => ['\x7b', '\x7d']
  | .jobj ((k, v) :: fs) => '\x7b' :: quoteStr k ++ ':' :: jsonChars v ++ jsonObjTail fs
  | .jarrp [] _ => ['[', ']']
  | .jarrp (x :: xs) _ => '[' :: jsonChars x ++ jsonTail xs

/-- Remaining array elements: `,v,…,v]`. -/
def jsonTail : List JVal → List Char
  | [] => [']']
  | x :: xs => ',' :: jsonChars x ++ jsonTail xs

/-- Remaining object members: `,"k":v,…\x7d`. -/
def jsonObjTail : List (String × JVal) → List Char
  | [] => ['\x7d']
  | (k, v) :: fs => ',' :: quoteStr k ++ ':' :: jsonChars v ++ jsonObjTail fs
end

/-- `JSON.stringify(v)` as a string. -/
def stringifyS (v : JVal) : String := ⟨jsonChars v⟩

/-! ### JSON.parse

A fuel-indexed recursive-descent parser for the JSON grammar (fuel only
bounds value nesting; a fuel of the input length always suffices). -/

/-- JSON insignificant whitespace. -/
def wsChar (c : Char) : Bool :=
  c = ' ' || c = '\t' || c = '\n' || c = '\r'

/-- Drop JSON insignificant whitespace. -/
def skipWs : List Char → List Char
  | c :: cs => if wsChar c then skipWs cs else c :: cs
  | [] => []

/-- Value of a hex digit character. -/
def hexVal (c : Char) : Option Nat :=
  if 48 ≤ c.toNat && c.toNat ≤ 57 then some (c.toNat - 48)
  else if 97 ≤ c.toNat && c.toNat ≤ 102 then some (c.toNat - 87)
  else if 65 ≤ c.toNat && c.toNat ≤ 70 then some (c.toNat - 55)
  else none

/-- Parse a JSON string body up to the closing quote, unescaping. -/
def parseStrBody : List Char → Option (List Char × List Char)
  | [] => none
  | c :: rest =>
    if c = '"' then some ([], rest)
    else if c = '\\' then
      match rest with
      | [] => none
      | e :: rest' =>
        if e = '"' then (parseStrBody rest').map fun (s, r) => ('"' :: s, r)
        else if e = '\\' then (parseStrBody rest').map fun (s, r) => ('\\' :: s, r)
        else if e = '/' then (parseStrBody rest').map fun (s, r) => ('/' :: s, r)
        else if e = 'b' then (parseStrBody rest').map fun (s, r) => (Char.ofNat 8 :: s, r)
        else if e = 'f' then (parseStrBody rest').map fun (s, r) => (Char.ofNat 12 :: s, r)
        else if e = 'n' then (parseStrBody rest').map fun (s, r) => ('\n' :: s, r)
        else if e = 'r' then (parseStrBody rest').map fun (s, r) => ('\r' :: s, r)
        else if e = 't' then (parseStrBody rest').map fun (s, r) => ('\t' :: s, r)
        else if e = 'u' then
          match rest' with
          | h1 :: h2 :: h3 :: h4 :: rest'' =>
            match hexVal h1, hexVal h2, hexVal h3, hexVal h4 with
            | some a, some b, some c', some d =>
              (parseStrBody rest'').map fun (s, r) =>
                (Char.ofNat (((a * 16 + b) * 16 + c') * 16 + d) :: s, r)
            | _, _, _, _ => none
          | _ => none
        else none
    else if c.toNat < 32 then none
    else (parseStrBody rest).map fun (s, r) => (c :: s, r)

/-- Exponent suffix `(e|E)[+|-]digits` of a JSON number, applied to the
already-read decimal `(m, e)` with sign flag `neg`. -/
def parseExpTail (neg : Bool) (m e : Nat) (r : List Char) : Option (JNum × List Char) :=
  let sp : Bool × List Char :=
    match r with
    | d :: r' => if d = '-' then (true, r') else if d = '+' then (false, r') else (false, r)
    | [] => (false, r)
  let (ds, r'') := spanDigits sp.2
  if ds = [] then none
  else
    let k : Int := if sp.1 then -(digitsVal ds : Int) else (digitsVal ds : Int)
    let me' := applyExp (m : Int) e k
    some (.dec (if neg then -me'.1 else me'.1) me'.2, r'')

/-- Parse a JSON number (JSON grammar: no leading zeros, optional
fraction and exponent), returning it in printed-digits form. -/
def parseNum (cs : List Char) : Option (JNum × List Char) :=
  let sp : Bool × List Char :=
    match cs with
    | c :: r => if c = '-' then (true, r) else (false, cs)
    | [] => (false, cs)
  let neg := sp.1
  let (ip, cs2) := spanDigits sp.2
  if ip = [] then none
  else if ip.length > 1 ∧ ip.headI = '0' then none
  else
    let fr : Nat × Nat × List Char :=
      match cs2 with
      | c :: r =>
        if c = '.' then
          let (fp, r') := spanDigits r
          if fp = [] then (digitsVal ip, 0, cs2)
          else (digitsVal ip * 10 ^ fp.length + digitsVal fp, fp.length, r')
        else (digitsVal ip, 0, cs2)
      | [] => (digitsVal ip, 0, cs2)
    match fr.2.2 with
    | [] => some (.dec (if neg then -(fr.1 : Int) else (fr.1 : Int)) fr.2.1, [])
    | c :: r =>
      if c = '.' then none
      else if c = 'e' || c = 'E' then parseExpTail neg fr.1 fr.2.1 r
      else some (.dec (if neg then -(fr.1 : Int) else (fr.1 : Int)) fr.2.1, c :: r)


mutual
/-- Parse one JSON value (the function skips leading whitespace itself;
fuel only bounds the recursion and the input length always suffices). -/
def parseVal : Nat → List Char → Option (JVal × List Char)
  | 0, _ => none
  | Nat.succ f, input =>
    match skipWs input with
    | [] => none
    | c :: rest =>
      if c = 'n' then
        match rest with
        | 'u' :: 'l' :: 'l' :: r => some (.jnull, r)
        | _ => none
      else if c = 't' then
        match rest with
        | 'r' :: 'u' :: 'e' :: r => some (.jbool true, r)
        | _ => none
      else if c = 'f' then
        match rest with
        | 'a' :: 'l' :: 's' :: 'e' :: r => some (.jbool false, r)
        | _ => none
      else if c = '"' then (parseStrBody rest).map fun (s, r) => (.jstr ⟨s⟩, r)
      else if c = '[' then
        match skipWs rest with
        | [] => none
        | c' :: rest' =>
          if c' = ']' then some (.jarr [], rest')
          else
            match parseVal f (c' :: rest') with
            | some (v, r) =>
              (parseArrTail f r).map fun (vs, r') => (.jarr (v :: vs), r')
            | none => none
      else if c = '\x7b' then
        match skipWs rest with
        | [] => none
        | c' :: rest' =>
          if c' = '\x7d' then some (.jobj [], rest')
          else
            match parseMember f (c' :: rest') with
            | some (kv, r) =>
              (parseObjTail f r).map fun (fs, r') => (.jobj (kv :: fs), r')
            | none => none
      else if c = '-' || isDigitChar c then
        (parseNum (c :: rest)).map fun (n, r) => (.jnum n, r)
      else none

/-- Array continuation: `,value … ]`. -/
def parseArrTail : Nat → List Char → Option (List JVal × List Char)
  | 0, _ => none
  | Nat.succ f, input =>
    match skipWs input with
    | [] => none
    | c :: rest =>
      if c = ']' then some ([], rest)
      else if c = ',' then
        match parseVal f rest with
        | some (v, r) =>
          (parseArrTail f r).map fun (vs, r') => (v :: vs, r')
        | none => none
      else none

/-- One object member: `"key" : value`. -/
def parseMember : Nat → List Char → Option ((String × JVal) × List Char)
  | 0, _ => none
  | Nat.succ f, input =>
    match skipWs input with
    | [] => none
    | c :: rest =>
      if c = '"' then
        match parseStrBody rest with
        | some (k, r) =>
          (match skipWs r with
           | [] => none
           | c' :: r' =>
             if c' = ':' then
               (parseVal f r').map fun (v, r'') => ((⟨k⟩, v), r'')
             else none)
        | none => none
      else none

/-- Object continuation: `,member … \x7d`. -/
def parseObjTail : Nat → List Char → Option (List (String × JVal) × List Char)
  | 0, _ => none
  | Nat.succ f, input =>
    match skipWs input with
    | [] => none
    | c :: rest =>
      if c = '\x7d' then some ([], rest)
      else if c = ',' then
        match parseMember f rest with
        | some (kv, r) =>
          (parseObjTail f r).map fun (fs, r') => (kv :: fs, r')
        | none => none
      else none
end

/-- `JSON.parse(s)`: parse one value, require only whitespace after it;
`none` models a thrown SyntaxError. -/
def parseS (s : String) : Option JVal :=
  match parseVal (s.length + 1) s.data with
  | some (v, rest) => if skipWs rest = [] then some v else none
  | none => none

/-! ### The localStorage backend

`store` is the string-keyed map (`getItem` returns null for an absent
key, modelled as `none`); `setThrows` injects the backend write failure
(quota exceeded), which surfaces as an exception thrown by `setItem`. -/

structure LS where
  store : String → Option String
  setThrows : Bool

/-- Outcome of a JS computation over the backend: a normal return or a
thrown exception, each with the backend state at that point. -/
inductive Res (α : Type) where
  | ok (a : α) (ls : LS) : Res α
  | thrown (ls : LS) : Res α

/-- Did the computation return normally? -/
def Res.isOk : Res α → Bool
  | .ok _ _ => true
  | .thrown _ => false

/-- The returned value, if any. -/
def Res.val : Res α → Option α
  | .ok a _ => some a
  | .thrown _ => none

/-- The backend state after the computation. -/
def Res.state : Res α → LS
  | .ok _ ls => ls
  | .thrown ls => ls

/-- The backend after writing `val` under `key`. -/
def LS.set (ls : LS) (key val : String) : LS :=
  ⟨fun k => if k = key then some val else ls.store k, ls.setThrows⟩

/-- `localStorage.setItem(key, val)`: throws when the quota failure is
injected (leaving the store unchanged), otherwise updates the store. -/
def setItem (key val : String) (ls : LS) : Res Unit :=
  if ls.setThrows then .thrown ls else .ok () (ls.set key val)

/-- JS falsiness of a `getItem` result: both null (absent key) and the
empty string are falsy — this is the `if (!raw)` guard of the source. -/
def rawFalsy : Option String → Bool
  | none => true
  | some s => s.isEmpty

/-! ### storageUtils.js -/

/-- `loadFromStorage(key, defaultValue = [], seedValue = null)`
(storageUtils.js lines 13–32). The whole body runs inside try/catch:
a thrown `setItem` (seed write) and a thrown `JSON.parse` (modelled by
`parseS` returning `none`) both land in the catch, which returns
`defaultValue`. The `parsed !== null && parsed !== undefined` guard needs
only the null test here because `JSON.parse` never produces undefined. -/
def loadFromStorage (key : String) (defaultValue : JVal := .jarr [])
    (seedValue : JVal := .jnull) (ls : LS) : Res JVal :=
  let raw := ls.store key
  if rawFalsy raw then
    if seedValue.isNull then .ok defaultValue ls
    else
      match setItem key (stringifyS seedValue) ls with
      | .ok _ ls' => .ok seedValue ls'
      | .thrown ls' => .ok defaultValue ls'
  else
    match parseS (raw.getD "") with
    | none => .ok defaultValue ls
    | some parsed => if parsed.isNull then .ok defaultValue ls else .ok parsed ls

/-- `saveToStorage(key, value)` (lines 40–48): serialize, write, report
success; a thrown write is caught and reported as `false`. -/
def saveToStorage (key : String) (value : JVal) (ls : LS) : Res Bool :=
  match setItem key (stringifyS value) ls with
  | .ok _ ls' => .ok true ls'
  | .thrown ls' => .ok false ls'

/-- `loadBuildingsDB()`. -/
def loadBuildingsDB (ls : LS) : Res JVal :=
  loadFromStorage "pu_buildings_db_v1" (.jarr []) .jnull ls

/-- `saveBuildingsDB(rows)`. -/
def saveBuildingsDB (rows : JVal) (ls : LS) : Res Bool :=
  saveToStorage "pu_buildings_db_v1" rows ls

/-- `loadUsersDB()`. -/
def loadUsersDB (ls : LS) : Res JVal :=
  loadFromStorage "PORTAL_USERS_DB" (.jarr []) .jnull ls

/-- `saveUsersDB(rows)`: saves `rows || []`. -/
def saveUsersDB (rows : JVal) (ls : LS) : Res Bool :=
  saveToStorage "PORTAL_USERS_DB" (if rows.truthy then rows else .jarr []) ls

/-- `kDues(bid)` (lines 93–95). -/
def kDues (bid : String) : String := "pu_dues_v1__" ++ bid

/-- Last-occurrence-wins lookup in an object's member list (JS property
semantics; `JSON.parse` keeps the last duplicate). -/
def objGet : List (String × JVal) → String → Option JVal
  | [], _ => none
  | p :: fs, k =>
    match objGet fs k with
    | some w => some w
    | none => if p.1 = k then some p.2 else none

/-- Property read `obj[k]`: member lookup on an object, named-property
lookup on an array carrying attached properties; `none` is JS undefined —
for primitives and for plain parsed arrays, whose own named properties
are absent. (Built-in properties such as `length` are not modelled; the
source reads only `monthlyFee`, `startMonth` and `paymentsByUser`, which
no array has built in.) -/
def jsGet (v : JVal) (k : String) : Option JVal :=
  match v with
  | .jobj fs => objGet fs k
  | .jarrp _ ps => objGet ps k
  | _ => none

/-- Property write on an association list: update an existing key in
place, otherwise append. -/
def objSet (fs : List (String × JVal)) (k : String) (v : JVal) :
    List (String × JVal) :=
  if fs.any (·.1 = k) then fs.map fun p => if p.1 = k then (k, v) else p
  else fs ++ [(k, v)]

/-- Property assignment `obj[k] = v`: mutates objects; arrays are objects
too in the source's sloppy-mode scripts, so assignment attaches a named
property to the array (a parsed array starts with none); on primitives
the assignment is a silent no-op. -/
def jsSet (recv : JVal) (k : String) (v : JVal) : JVal :=
  match recv with
  | .jobj fs => .jobj (objSet fs k v)
  | .jarr xs => .jarrp xs (objSet [] k v)
  | .jarrp xs ps => .jarrp xs (objSet ps k v)
  | other => other

/-- `x ?? dflt` where `x` is a property read (absent = undefined). -/
def nullish (x : Option JVal) (dflt : JVal) : JVal :=
  match x with
  | none => dflt
  | some .jnull => dflt
  | some v => v

/-- `String(n).padStart(2, "0")`. -/
def pad2 (s : String) : String :=
  ⟨List.replicate (2 - s.data.length) '0' ++ s.data⟩

/-- The dues `startMonth` string computed from the current date:
`` `${now.getFullYear()}-${String(now.getMonth() + 1).padStart(2, "0")}` ``
(`mIdx` is the 0-based `getMonth()`). -/
def ymStr (year mIdx : Nat) : String :=
  ⟨natChars year⟩ ++ "-" ++ pad2 ⟨natChars (mIdx + 1)⟩

/-- The dues default seed `{ monthlyFee: 2000, startMonth, paymentsByUser: {} }`. -/
def duesSeed (startMonth : String) : JVal :=
  .jobj [("monthlyFee", .jnum (.dec 2000 0)), ("startMonth", .jstr startMonth),
         ("paymentsByUser", .jobj [])]

/-- The three normalization assignments of `loadDues` (lines 113–115):
`data.monthlyFee = Number(data.monthlyFee ?? 2000)`,
`data.startMonth = String(data.startMonth || startMonth)`,
`data.paymentsByUser = data.paymentsByUser || \x7b\x7d`.
Each later assignment reads from the already-mutated object. -/
def normalizeDues (data : JVal) (startMonth : String) : JVal :=
  let d1 := jsSet data "monthlyFee"
    (.jnum (nullish (jsGet data "monthlyFee") (.jnum (.dec 2000 0))).toNumber)
  let sm : String :=
    match jsGet d1 "startMonth" with
    | some v => if v.truthy then ⟨v.toStr⟩ else startMonth
    | none => startMonth
  let d2 := jsSet d1 "startMonth" (.jstr sm)
  let pbu : JVal :=
    match jsGet d2 "paymentsByUser" with
    | some v => if v.truthy then v else .jobj []
    | none => .jobj []
  jsSet d2 "paymentsByUser" pbu

/-- `loadDues(bid)` (lines 102–118). The current date is passed in as
`(year, mIdx)`; `loadFromStorage` is called with default null and the
seed record, `if (!data) return defaultSeed` catches the null/falsy
results, and the normalization pass repairs the three fields. -/
def loadDues (bid : String) (year mIdx : Nat) (ls : LS) : Res JVal :=
  let startMonth := ymStr year mIdx
  let defaultSeed := duesSeed startMonth
  match loadFromStorage (kDues bid) .jnull defaultSeed ls with
  | .thrown ls' => .thrown ls'
  | .ok data ls' =>
    if !data.truthy then .ok defaultSeed ls'
    else .ok (normalizeDues data startMonth) ls'

/-- `saveDues(bid, obj)`. -/
def saveDues (bid : String) (obj : JVal) (ls : LS) : Res Bool :=
  saveToStorage (kDues bid) obj ls

/-- `kFinanceItems(bid)`. -/
def kFinanceItems (bid : String) : String := "pu_finance_items_v3__" ++ bid

/-- `loadItems(bid, seedData = null)`. -/
def loadItems (bid : String) (seedData : JVal := .jnull) (ls : LS) : Res JVal :=
  loadFromStorage (kFinanceItems bid) (.jarr []) seedData ls

/-- `saveItems(bid, items)`. -/
def saveItems (bid : String) (items : JVal) (ls : LS) : Res Bool :=
  saveToStorage (kFinanceItems bid) items ls

/-- `kFirms(bid)`. -/
def kFirms (bid : String) : String := "pu_finance_firms_v3__" ++ bid

/-- `loadFirms(bid, seedData = null)`. -/
def loadFirms (bid : String) (seedData : JVal := .jnull) (ls : LS) : Res JVal :=
  loadFromStorage (kFirms bid) (.jarr []) seedData ls

/-- `saveFirms(bid, firms)`. -/
def saveFirms (bid : String) (firms : JVal) (ls : LS) : Res Bool :=
  saveToStorage (kFirms bid) firms ls

/-- `kBoard(bid)`. -/
def kBoard (bid : String) : String := "pu_board_posts_v2__" ++ bid

/-- `loadBoardPosts(bid, seedData = null)`. -/
def loadBoardPosts (bid : String) (seedData : JVal := .jnull) (ls : LS) : Res JVal :=
  loadFromStorage (kBoard bid) (.jarr []) seedData ls

/-- `saveBoardPosts(bid, items)`. -/
def saveBoardPosts (bid : String) (items : JVal) (ls : LS) : Res Bool :=
  saveToStorage (kBoard bid) items ls

/-- `kForum(bid)`. -/
def kForum (bid : String) : String := "pu_forum_proposals_v2__" ++ bid

/-- `loadProposals(bid, seedData = null)`. -/
def loadProposals (bid : String) (seedData : JVal := .jnull) (ls : LS) : Res JVal :=
  loadFromStorage (kForum bid) (.jarr []) seedData ls

/-- `saveProposals(bid, items)`. -/
def saveProposals (bid : String) (items : JVal) (ls : LS) : Res Bool :=
  saveToStorage (kForum bid) items ls

/-- `kOpeningBalance(bid)`. -/
def kOpeningBalance (bid : String) : String := "pu_opening_balance__" ++ bid

/-- `Number(raw) || 0`. -/
def numOr0 (n : JNum) : JNum := if n.truthy then n else .dec 0 0

/-- `loadOpeningBalance(bid)` (lines 263–271). Note: unlike every other
accessor, this function has no try/catch, so a thrown seed write
propagates to the caller. The seed write stores `String(0) = "0"`. -/
def loadOpeningBalance (bid : String) (ls : LS) : Res JNum :=
  let raw := ls.store (kOpeningBalance bid)
  if rawFalsy raw then
    match setItem (kOpeningBalance bid) ⟨(JNum.dec 0 0).toChars⟩ ls with
    | .ok _ ls' => .ok (.dec 0 0) ls'
    | .thrown ls' => .thrown ls'
  else .ok (numOr0 (strToNum (raw.getD ""))) ls

/-- `saveOpeningBalance(bid, val)` (lines 279–287): writes
`String(Number(val || 0))` inside try/catch. -/
def saveOpeningBalance (bid : String) (val : JVal) (ls : LS) : Res Bool :=
  let v := if val.truthy then val else .jnum (.dec 0 0)
  match setItem (kOpeningBalance bid) ⟨v.toNumber.toChars⟩ ls with
  | .ok _ ls' => .ok true ls'
  | .thrown ls' => .ok false ls'

/-- `kRead(bid, kind)` (lines 295–297): `` `pu_read_${kind}__${bid}` ``. -/
def kRead (bid kind : String) : String := "pu_read_" ++ kind ++ "__" ++ bid

/-- `loadReadMap(bid, kind)`. -/
def loadReadMap (bid kind : String) (ls : LS) : Res JVal :=
  loadFromStorage (kRead bid kind) (.jobj []) .jnull ls

/-- `saveReadMap(bid, kind, map)`. -/
def saveReadMap (bid kind : String) (map : JVal) (ls : LS) : Res Bool :=
  saveToStorage (kRead bid kind) map ls

/-! ### Key families

Framework for stating key isolation between the entity families of the
storage layer: each family's key is a fixed literal stem followed by a
family-specific suffix (`famTail`) built from the tenant id and, for the
read-tracking family, the content kind. -/

/-- The nine key families of storageUtils.js. -/
inductive KeyFam where
  | buildings | users | dues | items | firms | board | forum | obal | readmap
deriving DecidableEq

/-- Is the family keyed per tenant (takes a building id)? -/
def KeyFam.perTenant : KeyFam → Bool
  | .buildings | .users => false
  | _ => true

/-- The fixed literal stem of a family's keys. -/
def famStem : KeyFam → String
  | .buildings => "pu_buildings_db_v1"
  | .users => "PORTAL_USERS_DB"
  | .dues => "pu_dues_v1__"
  | .items => "pu_finance_items_v3__"
  | .firms => "pu_finance_firms_v3__"
  | .board => "pu_board_posts_v2__"
  | .forum => "pu_forum_proposals_v2__"
  | .obal => "pu_opening_balance__"
  | .readmap => "pu_read_"

/-- The variable part following the stem. -/
def famTail : KeyFam → String → String → String
  | .buildings, _, _ => ""
  | .users, _, _ => ""
  | .readmap, bid, kind => kind ++ "__" ++ bid
  | _, bid, _ => bid

/-- The key a family builds (delegating to the source's key builders). -/
def famKey : KeyFam → String → String → String
  | .buildings, _, _ => "pu_buildings_db_v1"
  | .users, _, _ => "PORTAL_USERS_DB"
  | .dues, bid, _ => kDues bid
  | .items, bid, _ => kFinanceItems bid
  | .firms, bid, _ => kFirms bid
  | .board, bid, _ => kBoard bid
  | .forum, bid, _ => kForum bid
  | .obal, bid, _ => kOpeningBalance bid
  | .readmap, bid, kind => kRead bid kind

/-! ### Serializability

JSON.stringify turns NaN and the infinities into `null` and drops named
array properties, so only values free of non-finite numbers and of
array-attached properties survive a stringify/parse round trip. -/

mutual
/-- No NaN/Infinity and no array-attached named properties anywhere in
the value. -/
def SerV : JVal → Bool
  | .jnull => true
  | .jbool _ => true
  | .jstr _ => true
  | .jnum n => n.isFinite
  | .jarr xs => SerList xs
  | .jobj fs => SerObj fs
  | .jarrp _ _ => false

/-- `SerV` on every element. -/
def SerList : List JVal → Bool
  | [] => true
  | x :: xs => SerV x && SerList xs

/-- `SerV` on every member value. -/
def SerObj : List (String × JVal) → Bool
  | [] => true
  | (_, v) :: fs => SerV v && SerObj fs
end

/-- Characters a printed JSON value can start with. -/
def valStart (c : Char) : Bool :=
  c = 'n' || c = 't' || c = 'f' || c = '"' || c = '[' || c = '\x7b' ||
    c = '-' || isDigitChar c

/-- Characters that may legitimately follow a printed JSON value inside a
larger printed document (or the end of input). -/
def jsonStop : List Char → Bool
  | [] => true
  | c :: _ => c = ',' || c = ']' || c = '\x7d'

/-! ### Concrete backends for witnesses and counterexamples -/

/-- The empty, well-behaved backend. -/
def lsEmpty : LS := ⟨fun _ => none, false⟩

/-- The empty backend whose writes throw (quota exhausted). -/
def lsQuotaEmpty : LS := ⟨fun _ => none, true⟩

/-- A backend holding exactly one key/value pair, writes succeeding. -/
def lsOne (key val : String) : LS :=
  ⟨fun k => if k = key then some val else none, false⟩

/-! ## Theorems -/

/-- C1: Seed-vs-default load behavior. For a key with nothing stored,
`loadFromStorage(key, d)` returns `d` and performs no write (the backend
comes back unchanged, so a subsequent load still sees nothing stored),
while `loadFromStorage(key, d, s)` with a non-null seed `s` serializes
`s`, writes it under `key`, and returns `s`. -/
theorem c1_seed_vs_default (key : String) (d s : JVal) (ls : LS)
    (habsent : ls.store key = none) (hseed : s.isNull = false)
    (hw : ls.setThrows = false) :
    loadFromStorage key d .jnull ls = .ok d ls ∧
    loadFromStorage key d s ls = .ok s (ls.set key (stringifyS s)) ∧
    (ls.set key (stringifyS s)).store key = some (stringifyS s) := by
  refine ⟨?_, ?_, ?_⟩
  · simp [loadFromStorage, habsent, rawFalsy, JVal.isNull]
  · simp [loadFromStorage, habsent, rawFalsy, hseed, setItem, hw]
  · simp [LS.set]

/-- Witness for C1 at key `"k"`, default `[]`, seed `{}` on the empty
backend. -/
theorem c1_witness :
    lsEmpty.store "k" = none ∧ (JVal.jobj []).isNull = false ∧
      lsEmpty.setThrows = false ∧
    (loadFromStorage "k" (.jarr []) .jnull lsEmpty = .ok (.jarr []) lsEmpty ∧
     loadFromStorage "k" (.jarr []) (.jobj []) lsEmpty =
       .ok (.jobj []) (lsEmpty.set "k" (stringifyS (.jobj []))) ∧
     (lsEmpty.set "k" (stringifyS (.jobj []))).store "k" =
       some (stringifyS (.jobj []))) :=
  ⟨rfl, rfl, rfl, c1_seed_vs_default "k" (.jarr []) (.jobj []) lsEmpty rfl rfl rfl⟩

/-- C4: Load failure recovery. For a stored payload that is unparseable
(`JSON.parse` throws) or deserializes to null, `loadFromStorage(key, d)`
returns `d` normally — the failure is swallowed, not propagated, and
nothing is written. -/
theorem c4_load_failure_recovery (key : String) (d : JVal) (ls : LS) (raw : String)
    (hstored : ls.store key = some raw)
    (hbad : parseS raw = none ∨ parseS raw = some .jnull) :
    loadFromStorage key d .jnull ls = .ok d ls := by
  by_cases hemp : raw.isEmpty
  · simp [loadFromStorage, hstored, rawFalsy, hemp, JVal.isNull]
  · rcases hbad with hb | hb <;>
      simp [loadFromStorage, hstored, rawFalsy, hemp, hb, JVal.isNull]

/-- Witness for C4 on the payloads `"not json"` (a SyntaxError) and
`"null"` (deserializes to null). -/
theorem c4_witness :
    (lsOne "k" "not json").store "k" = some "not json" ∧
      parseS "not json" = none ∧
    loadFromStorage "k" (.jobj []) .jnull (lsOne "k" "not json") =
      .ok (.jobj []) (lsOne "k" "not json") ∧
    parseS "null" = some .jnull ∧
    loadFromStorage "k" (.jobj []) .jnull (lsOne "k" "null") =
      .ok (.jobj []) (lsOne "k" "null") :=
  ⟨rfl, rfl,
   c4_load_failure_recovery "k" (.jobj []) (lsOne "k" "not json") "not json" rfl (Or.inl rfl),
   rfl,
   c4_load_failure_recovery "k" (.jobj []) (lsOne "k" "null") "null" rfl (Or.inr rfl)⟩

/-- C5: Save failure semantics and atomicity. When the backend write
throws (quota exceeded), `saveToStorage(key, v)` returns `false` instead
of raising, and the backend — in particular the previously stored value
under `key`, or its absence — is unchanged. -/
theorem c5_save_failure (key : String) (v : JVal) (ls : LS)
    (hq : ls.setThrows = true) :
    saveToStorage key v ls = .ok false ls := by
  simp [saveToStorage, setItem, hq]

/-- Witness for C5 on the quota-exhausted empty backend. -/
theorem c5_witness :
    lsQuotaEmpty.setThrows = true ∧
    saveToStorage "k" (.jnum (.dec 5 0)) lsQuotaEmpty = .ok false lsQuotaEmpty :=
  ⟨rfl, c5_save_failure "k" (.jnum (.dec 5 0)) lsQuotaEmpty rfl⟩

/-- C9: Read-time-only repair. When the dues key holds a payload that
deserializes successfully, `loadDues` returns normally and performs no
write at all — the backend state (every key) is returned untouched. -/
theorem c9_read_time_only_repair (bid : String) (year mIdx : Nat) (ls : LS)
    (raw : String) (v : JVal)
    (hstored : ls.store (kDues bid) = some raw) (hne : raw.isEmpty = false)
    (hparse : parseS raw = some v) :
    (loadDues bid year mIdx ls).state = ls ∧
    (loadDues bid year mIdx ls).isOk = true := by
  have hload : ∀ d s, loadFromStorage (kDues bid) d s ls =
      if v.isNull then .ok d ls else .ok v ls := by
    intro d s
    by_cases hv : v.isNull <;>
      simp [loadFromStorage, hstored, rawFalsy, hne, hparse, hv]
  rw [loadDues]
  simp only [hload]
  by_cases hn : v.isNull
  · simp [hn, JVal.truthy, Res.state, Res.isOk]
  · by_cases ht : v.truthy
    · simp [hn, ht, Res.state, Res.isOk]
    · simp only [Bool.not_eq_true] at ht
      simp [hn, ht, Res.state, Res.isOk]

/-- Witness for C9 on a stored dues record `{"monthlyFee": 1500}`. -/
theorem c9_witness :
    (lsOne (kDues "b1") "\x7b\"monthlyFee\":1500\x7d").store (kDues "b1") =
      some "\x7b\"monthlyFee\":1500\x7d" ∧
    parseS "\x7b\"monthlyFee\":1500\x7d" =
      some (.jobj [("monthlyFee", .jnum (.dec 1500 0))]) ∧
    (loadDues "b1" 2026 9 (lsOne (kDues "b1") "\x7b\"monthlyFee\":1500\x7d")).state =
      lsOne (kDues "b1") "\x7b\"monthlyFee\":1500\x7d" ∧
    (loadDues "b1" 2026 9 (lsOne (kDues "b1") "\x7b\"monthlyFee\":1500\x7d")).isOk = true :=
  ⟨rfl, rfl,
   (c9_read_time_only_repair "b1" 2026 9 (lsOne (kDues "b1") "\x7b\"monthlyFee\":1500\x7d")
      "\x7b\"monthlyFee\":1500\x7d" (.jobj [("monthlyFee", .jnum (.dec 1500 0))])
      rfl rfl rfl).1,
   (c9_read_time_only_repair "b1" 2026 9 (lsOne (kDues "b1") "\x7b\"monthlyFee\":1500\x7d")
      "\x7b\"monthlyFee\":1500\x7d" (.jobj [("monthlyFee", .jnum (.dec 1500 0))])
      rfl rfl rfl).2⟩

/-- C10: A stored empty string is treated as an absent key (the source
guards with string truthiness, `if (!raw)`, not key presence): with a
non-null seed the existing empty-string entry is overwritten by the
serialized seed and the seed is returned; without a seed the default is
returned. -/
theorem c10_empty_string_treated_as_absent (key : String) (d s : JVal) (ls : LS)
    (hstored : ls.store key = some "") (hseed : s.isNull = false)
    (hw : ls.setThrows = false) :
    loadFromStorage key d s ls = .ok s (ls.set key (stringifyS s)) ∧
    (ls.set key (stringifyS s)).store key = some (stringifyS s) ∧
    loadFromStorage key d .jnull ls = .ok d ls := by
  have h0 : ("" : String).isEmpty = true := rfl
  refine ⟨?_, ?_, ?_⟩
  · simp [loadFromStorage, hstored, rawFalsy, h0, hseed, setItem, hw]
  · simp [LS.set]
  · simp [loadFromStorage, hstored, rawFalsy, h0, JVal.isNull]

/-- Witness for C10: key `"k"` holds `""`, seed `{"a": true}`. -/
theorem c10_witness :
    (lsOne "k" "").store "k" = some "" ∧
      (JVal.jobj [("a", .jbool true)]).isNull = false ∧
      (lsOne "k" "").setThrows = false ∧
    (loadFromStorage "k" (.jarr []) (.jobj [("a", .jbool true)]) (lsOne "k" "") =
       .ok (.jobj [("a", .jbool true)])
         ((lsOne "k" "").set "k" (stringifyS (.jobj [("a", .jbool true)]))) ∧
     ((lsOne "k" "").set "k" (stringifyS (.jobj [("a", .jbool true)]))).store "k" =
       some (stringifyS (.jobj [("a", .jbool true)])) ∧
     loadFromStorage "k" (.jarr []) .jnull (lsOne "k" "") = .ok (.jarr []) (lsOne "k" "")) :=
  ⟨rfl, rfl, rfl,
   c10_empty_string_treated_as_absent "k" (.jarr []) (.jobj [("a", .jbool true)])
     (lsOne "k" "") rfl rfl rfl⟩

/-- C6: `loadOpeningBalance` contradicts the no-accessor-ever-raises
contract: on a tenant with nothing stored and a backend whose write
throws (quota exceeded), its unguarded seed write propagates the
exception — while the adapter-based accessors and the guarded
`saveOpeningBalance` swallow the same failure. -/
theorem c6_load_opening_balance_raises :
    loadOpeningBalance "b1" lsQuotaEmpty = .thrown lsQuotaEmpty ∧
    (loadOpeningBalance "b1" lsQuotaEmpty).isOk = false ∧
    (loadDues "b1" 2026 9 lsQuotaEmpty).isOk = true ∧
    (saveOpeningBalance "b1" (.jnum (.dec 5 0)) lsQuotaEmpty).val = some false ∧
    (saveToStorage "k" (.jarr []) lsQuotaEmpty).val = some false :=
  ⟨rfl, rfl, rfl, rfl, rfl⟩

/-- C2 fails as stated: a stored dues record with a non-numeric
`monthlyFee` (here the string `"abc"`) is normalized to `NaN`, not to the
constant 2000, so `monthlyFee` is not a finite number. -/
theorem c2_counterexample :
    (loadDues "b1" 2026 9 (lsOne (kDues "b1") "\x7b\"monthlyFee\":\"abc\"\x7d")).val =
      some (.jobj [("monthlyFee", .jnum .nan), ("startMonth", .jstr "2026-10"),
                   ("paymentsByUser", .jobj [])]) ∧
    JNum.nan.isFinite = false ∧ JNum.nan ≠ JNum.dec 2000 0 :=
  ⟨rfl, rfl, by decide⟩

/-- C3 fails as stated, three ways. `null` saves successfully, but the
null guard of the load path turns the stored `"null"` into the caller's
default, which is not deep-equal to the saved value. The array `[NaN]`
saves successfully as `"[null]"` (JSON.stringify writes non-finite
numbers as `null`) and loads back as `[null]`, not `[NaN]` — so values
containing NaN do not load back as the default either; they load back
with `null` in place. And an array carrying an attached named property
saves successfully but loses the property, JSON.stringify dropping named
array properties. -/
theorem c3_counterexample :
    ((saveToStorage "k" .jnull lsEmpty).val = some true ∧
     (loadFromStorage "k" (.jarr []) .jnull (saveToStorage "k" .jnull lsEmpty).state).val =
       some (.jarr []) ∧
     JVal.jarr [] ≠ JVal.jnull) ∧
    ((saveToStorage "k" (.jarr [.jnum .nan]) lsEmpty).val = some true ∧
     (saveToStorage "k" (.jarr [.jnum .nan]) lsEmpty).state.store "k" = some "[null]" ∧
     (loadFromStorage "k" (.jarr []) .jnull
        (saveToStorage "k" (.jarr [.jnum .nan]) lsEmpty).state).val =
       some (.jarr [.jnull]) ∧
     JVal.jarr [.jnull] ≠ JVal.jarr [.jnum .nan]) ∧
    ((saveToStorage "k" (.jarrp [] [("a", .jnum (.dec 1 0))]) lsEmpty).val = some true ∧
     (saveToStorage "k" (.jarrp [] [("a", .jnum (.dec 1 0))]) lsEmpty).state.store "k" =
       some "[]" ∧
     (loadFromStorage "k" (.jarr []) .jnull
        (saveToStorage "k" (.jarrp [] [("a", .jnum (.dec 1 0))]) lsEmpty).state).val =
       some (.jarr []) ∧
     JVal.jarr [] ≠ JVal.jarrp [] [("a", .jnum (.dec 1 0))]) :=
  ⟨⟨rfl, rfl, fun h => JVal.noConfusion h⟩,
   ⟨rfl, rfl, rfl, by
     intro h
     injection h with h1
     injection h1 with h2 _
     exact JVal.noConfusion h2⟩,
   ⟨rfl, rfl, rfl, fun h => JVal.noConfusion h⟩⟩

/-- C7 fails as stated: the stored raw string `"Infinity"` coerces to the
non-finite `Infinity`, which is truthy, so `Number(raw) || 0` returns it
— the accessor does not return a finite number for every stored string. -/
theorem c7_counterexample :
    (loadOpeningBalance "b1" (lsOne (kOpeningBalance "b1") "Infinity")).val =
      some (.inf false) ∧
    (JNum.inf false).isFinite = false :=
  ⟨rfl, rfl⟩

/-- C8 fails as stated: two distinct (tenant, kind) pairs can collide in
the read-tracking family when a kind contains underscores. -/
theorem c8_counterexample :
    kRead "_z" "a" = kRead "z" "a_" ∧
    (("_z", "a") : String × String) ≠ ("z", "a_") :=
  ⟨rfl, by decide⟩

/-- C7 (amended): when nothing (or an empty string) is stored for the
tenant and the seed write succeeds, `loadOpeningBalance` writes `"0"` and
returns `0`; for every stored nonempty raw string it returns `Number(raw)`
when that coercion is truthy — which can be the non-finite `Infinity` —
and `0` when the coercion is `NaN` or `0`. -/
theorem c7_opening_balance (bid : String) (ls : LS) (raw : String) :
    (rawFalsy (ls.store (kOpeningBalance bid)) = true → ls.setThrows = false →
      loadOpeningBalance bid ls = .ok (.dec 0 0) (ls.set (kOpeningBalance bid) "0")) ∧
    (ls.store (kOpeningBalance bid) = some raw → raw.isEmpty = false →
      loadOpeningBalance bid ls =
        .ok (if (strToNum raw).truthy then strToNum raw else .dec 0 0) ls) := by
  constructor
  · intro hf hw
    have h0 : (String.mk (JNum.dec 0 0).toChars) = "0" := rfl
    simp [loadOpeningBalance, hf, setItem, hw, h0]
  · intro hst hne
    simp [loadOpeningBalance, hst, rawFalsy, hne, numOr0]

/-- Witness for C7: first read on the empty backend seeds `"0"`; stored
`"150.5"` reads back as the number `150.5`; `"abc"` coerces to NaN. -/
theorem c7_witness :
    rawFalsy (lsEmpty.store (kOpeningBalance "b1")) = true ∧
      lsEmpty.setThrows = false ∧
    loadOpeningBalance "b1" lsEmpty =
      .ok (.dec 0 0) (lsEmpty.set (kOpeningBalance "b1") "0") ∧
    (lsOne (kOpeningBalance "b1") "150.5").store (kOpeningBalance "b1") =
      some "150.5" ∧
    loadOpeningBalance "b1" (lsOne (kOpeningBalance "b1") "150.5") =
      .ok (if (strToNum "150.5").truthy then strToNum "150.5" else .dec 0 0)
        (lsOne (kOpeningBalance "b1") "150.5") ∧
    strToNum "150.5" = .dec 1505 1 ∧ strToNum "abc" = .nan ∧
    numOr0 (strToNum "abc") = .dec 0 0 :=
  ⟨rfl, rfl, (c7_opening_balance "b1" lsEmpty "").1 rfl rfl, rfl,
   (c7_opening_balance "b1" (lsOne (kOpeningBalance "b1") "150.5") "150.5").2 rfl rfl,
   rfl, rfl, rfl⟩

/-- Two lists appending to the same list: one is a prefix of the other. -/
theorem append_overlap {α : Type} : ∀ (a b t u : List α),
    a ++ t = b ++ u → a <+: b ∨ b <+: a
  | [], b, _, _, _ => Or.inl ⟨b, rfl⟩
  | a :: as, [], _, _, _ => Or.inr ⟨a :: as, rfl⟩
  | a :: as, b :: bs, t, u, h => by
    injection h with h1 h2
    subst h1
    rcases append_overlap as bs t u h2 with ⟨w, hw⟩ | ⟨w, hw⟩
    · exact Or.inl ⟨w, by rw [List.cons_append, hw]⟩
    · exact Or.inr ⟨w, by rw [List.cons_append, hw]⟩

/-- The nine family stems are pairwise non-overlapping: none is a prefix
of another. -/
theorem famStem_no_overlap : ∀ f1 f2 : KeyFam, f1 ≠ f2 →
    ¬ (famStem f1).data <+: (famStem f2).data := by
  intro f1 f2 hne
  cases f1 <;> cases f2 <;> first
    | exact absurd rfl hne
    | decide

/-- The empty string has no characters. -/
theorem data_empty : ("" : String).data = [] := rfl

/-- Every family key is its stem followed by its tail. -/
theorem famKey_data (f : KeyFam) (b k : String) :
    (famKey f b k).data = (famStem f).data ++ (famTail f b k).data := by
  cases f <;>
    simp [famKey, famStem, famTail, kDues, kFinanceItems, kFirms, kBoard,
      kForum, kOpeningBalance, kRead, String.data_append, data_empty]

/-- Keys of distinct families never collide, for any inputs. -/
theorem famKey_cross (f1 f2 : KeyFam) (h : f1 ≠ f2) (b1 k1 b2 k2 : String) :
    famKey f1 b1 k1 ≠ famKey f2 b2 k2 := by
  intro heq
  have hd := congrArg String.data heq
  rw [famKey_data, famKey_data] at hd
  rcases append_overlap _ _ _ _ hd with hp | hp
  · exact famStem_no_overlap f1 f2 h hp
  · exact famStem_no_overlap f2 f1 (Ne.symm h) hp

/-- Within a per-tenant family (same content kind for the read family),
distinct tenants get distinct keys. -/
theorem famKey_tenant_inj (f : KeyFam) (hf : f.perTenant = true)
    (b1 b2 k : String) (hne : b1 ≠ b2) : famKey f b1 k ≠ famKey f b2 k := by
  intro heq
  apply hne
  have hd := congrArg String.data heq
  cases f
  case buildings => exact absurd hf (by decide)
  case users => exact absurd hf (by decide)
  all_goals
    simp only [famKey, kDues, kFinanceItems, kFirms, kBoard, kForum,
      kOpeningBalance, kRead, String.data_append, List.append_assoc] at hd
  case readmap =>
    have h1 := List.append_cancel_left hd
    have h2 := List.append_cancel_left h1
    have h3 := List.append_cancel_left h2
    exact String.ext h3
  all_goals exact String.ext (List.append_cancel_left hd)

/-- Splitting on an underscore separator is unambiguous when the left
parts contain no underscore. -/
theorem no_underscore_append_inj : ∀ (a b x y : List Char), '_' ∉ a → '_' ∉ b →
    a ++ '_' :: x = b ++ '_' :: y → a = b ∧ x = y
  | [], [], _, _, _, _, h => by
    injection h with _ h2
    exact ⟨rfl, h2⟩
  | [], c :: b', _, _, _, hb, h => by
    injection h with h1 _
    subst h1
    exact absurd (List.mem_cons_self _ _) hb
  | c :: a', [], _, _, ha, _, h => by
    injection h with h1 _
    rw [← h1] at ha
    exact absurd (List.mem_cons_self _ _) ha
  | c :: a', d :: b', x, y, ha, hb, h => by
    injection h with h1 h2
    subst h1
    have ih := no_underscore_append_inj a' b' x y
      (fun hm => ha (List.mem_cons_of_mem _ hm))
      (fun hm => hb (List.mem_cons_of_mem _ hm)) h2
    exact ⟨by rw [ih.1], ih.2⟩

/-- Distinct (tenant, kind) pairs with underscore-free kinds get distinct
read-tracking keys. -/
theorem kRead_pair_inj (b1 k1 b2 k2 : String)
    (h1 : '_' ∉ k1.data) (h2 : '_' ∉ k2.data)
    (hne : (b1, k1) ≠ (b2, k2)) : kRead b1 k1 ≠ kRead b2 k2 := by
  intro heq
  have hd := congrArg String.data heq
  simp only [kRead, String.data_append, List.append_assoc] at hd
  have hd' := List.append_cancel_left hd
  have hsplit := no_underscore_append_inj k1.data k2.data _ _ h1 h2 hd'
  apply hne
  have hb : b1 = b2 := by
    have := hsplit.2
    injection this with _ h3
    exact String.ext h3
  have hk : k1 = k2 := String.ext hsplit.1
  rw [hb, hk]

/-- C8 (amended): key isolation. Distinct tenants under one per-tenant
family never collide; distinct (tenant, kind) pairs under the
read-tracking family never collide provided the kinds are underscore-free
(as the used kinds "board" and "forum" are); and no two distinct entity
families can produce the same key string for any inputs. -/
theorem c8_key_isolation :
    (∀ f : KeyFam, f.perTenant = true → ∀ b1 b2 k, b1 ≠ b2 →
       famKey f b1 k ≠ famKey f b2 k) ∧
    (∀ b1 k1 b2 k2 : String, '_' ∉ k1.data → '_' ∉ k2.data →
       (b1, k1) ≠ (b2, k2) → kRead b1 k1 ≠ kRead b2 k2) ∧
    (∀ f1 f2 : KeyFam, f1 ≠ f2 → ∀ b1 k1 b2 k2,
       famKey f1 b1 k1 ≠ famKey f2 b2 k2) :=
  ⟨famKey_tenant_inj, kRead_pair_inj,
   fun f1 f2 h b1 k1 b2 k2 => famKey_cross f1 f2 h b1 k1 b2 k2⟩

/-- Witness for C8 on concrete tenants and the kinds actually used. -/
theorem c8_witness :
    KeyFam.dues.perTenant = true ∧ ("b1" : String) ≠ "b2" ∧
    famKey .dues "b1" "" ≠ famKey .dues "b2" "" ∧
    '_' ∉ ("board" : String).data ∧ '_' ∉ ("forum" : String).data ∧
    (("b1", "board") : String × String) ≠ ("b1", "forum") ∧
    kRead "b1" "board" ≠ kRead "b1" "forum" ∧
    KeyFam.dues ≠ KeyFam.obal ∧
    famKey .dues "b1" "" ≠ famKey .obal "b1" "" :=
  ⟨rfl, by decide,
   c8_key_isolation.1 .dues rfl "b1" "b2" "" (by decide),
   by decide, by decide, by decide,
   c8_key_isolation.2.1 "b1" "board" "b1" "forum" (by decide) (by decide) (by decide),
   by decide,
   c8_key_isolation.2.2 .dues .obal (by decide) "b1" "" "b1" ""⟩

/-- Lookup over an append prefers the right (later) part. -/
theorem objGet_append (fs gs : List (String × JVal)) (k : String) :
    objGet (fs ++ gs) k =
      match objGet gs k with
      | some w => some w
      | none => objGet fs k := by
  induction fs with
  | nil =>
    simp only [List.nil_append]
    cases h : objGet gs k <;> simp [h, objGet]
  | cons p fs ih =>
    simp only [List.cons_append, objGet, List.append_eq]
    rw [ih]
    cases h : objGet gs k <;> simp [h]

/-- A key occurring nowhere looks up to nothing. -/
theorem objGet_none_of_any_false (fs : List (String × JVal)) (k : String)
    (h : fs.any (fun p => p.1 = k) = false) : objGet fs k = none := by
  induction fs with
  | nil => rfl
  | cons p fs ih =>
    simp only [List.any_cons, Bool.or_eq_false_iff] at h
    have h1 : ¬ p.1 = k := by simpa using h.1
    simp [objGet, ih h.2, h1]

/-- Updating every occurrence of `k` makes `k` look up to the new value
(provided `k` occurs). -/
theorem objGet_map_set_self (fs : List (String × JVal)) (k : String) (v : JVal)
    (h : fs.any (fun p => p.1 = k) = true) :
    objGet (fs.map fun p => if p.1 = k then (k, v) else p) k = some v := by
  induction fs with
  | nil => simp at h
  | cons p fs ih =>
    by_cases hany : fs.any (fun p => p.1 = k) = true
    · simp only [List.map_cons, objGet, ih hany]
    · rw [Bool.not_eq_true] at hany
      have hk : p.1 = k := by
        simp only [List.any_cons, hany, Bool.or_false, decide_eq_true_eq] at h
        exact h
      have hmap : objGet (fs.map fun p => if p.1 = k then (k, v) else p) k = none := by
        apply objGet_none_of_any_false
        rw [List.any_map]
        rw [List.any_eq_false] at hany ⊢
        intro p' hp'
        have hpk : ¬ p'.1 = k := by simpa using hany p' hp'
        simp [Function.comp, hpk]
      simp [List.map_cons, objGet, hmap, hk]

/-- Updating occurrences of `k` does not affect other keys. -/
theorem objGet_map_ne (fs : List (String × JVal)) (k : String) (v : JVal)
    (k' : String) (hne : k' ≠ k) :
    objGet (fs.map fun p => if p.1 = k then (k, v) else p) k' = objGet fs k' := by
  have hk : ¬ k = k' := fun hh => hne hh.symm
  induction fs with
  | nil => rfl
  | cons p fs ih =>
    simp only [List.map_cons, objGet, ih]
    by_cases hp : p.1 = k
    · simp [hp, hk]
    · simp [hp]

/-- Property write then read of the same key. -/
theorem objGet_objSet_self (fs : List (String × JVal)) (k : String) (v : JVal) :
    objGet (objSet fs k v) k = some v := by
  unfold objSet
  by_cases h : fs.any (fun p => p.1 = k) = true
  · simp only [h, if_true]
    exact objGet_map_set_self fs k v h
  · rw [Bool.not_eq_true] at h
    simp only [h, Bool.false_eq_true, if_false, objGet_append]
    simp [objGet]

/-- Property write then read of a different key. -/
theorem objGet_objSet_ne (fs : List (String × JVal)) (k : String) (v : JVal)
    (k' : String) (hne : k' ≠ k) :
    objGet (objSet fs k v) k' = objGet fs k' := by
  have hk : ¬ k = k' := fun hh => hne hh.symm
  unfold objSet
  by_cases h : fs.any (fun p => p.1 = k) = true
  · simp only [h, if_true]
    exact objGet_map_ne fs k v k' hne
  · rw [Bool.not_eq_true] at h
    simp only [h, Bool.false_eq_true, if_false, objGet_append]
    simp [objGet, hk]

/-- C2 (amended): for every persisted dues payload that deserializes,
`loadDues` returns without writing, repairing according to the payload's
type. A payload deserializing to a falsy value yields the default seed
record. An object payload comes back with all three fields present:
`monthlyFee` always holds a number — the constant 2000 when the stored
field was absent or null, and the JS `Number()` coercion of the stored
field otherwise (so a non-numeric stored field yields NaN, not 2000);
`startMonth` always holds a string — the current year-month when the
stored field was absent or falsy, the `String()` coercion of the stored
field when truthy; `paymentsByUser` is the stored field when truthy and
the empty mapping otherwise. An array payload — an object in sloppy-mode
JS — gets the same three assignments as attached named properties, which
a freshly parsed array lacks, so the three defaults are attached. A
truthy primitive payload (number, string, `true`) is returned unrepaired,
property assignment on primitives being a silent no-op. -/
theorem c2_dues_normalization (bid : String) (year mIdx : Nat) (ls : LS)
    (raw : String) (d : JVal)
    (hstored : ls.store (kDues bid) = some raw) (hne : raw.isEmpty = false)
    (hparse : parseS raw = some d) :
    (d.truthy = false →
      loadDues bid year mIdx ls = .ok (duesSeed (ymStr year mIdx)) ls) ∧
    (∀ fs, d = .jobj fs → ∃ fs',
      loadDues bid year mIdx ls = .ok (.jobj fs') ls ∧
      (∃ n : JNum, objGet fs' "monthlyFee" = some (.jnum n) ∧
        ((objGet fs "monthlyFee" = none ∨ objGet fs "monthlyFee" = some .jnull) →
          n = .dec 2000 0) ∧
        (∀ w, objGet fs "monthlyFee" = some w → w.isNull = false →
          n = w.toNumber)) ∧
      (∃ s : String, objGet fs' "startMonth" = some (.jstr s) ∧
        ((∀ w, objGet fs "startMonth" = some w → w.truthy = false) →
          s = ymStr year mIdx) ∧
        (∀ w, objGet fs "startMonth" = some w → w.truthy = true →
          s = String.mk w.toStr)) ∧
      (∃ p : JVal, objGet fs' "paymentsByUser" = some p ∧
        ((∀ w, objGet fs "paymentsByUser" = some w → w.truthy = false) →
          p = .jobj []) ∧
        (∀ w, objGet fs "paymentsByUser" = some w → w.truthy = true → p = w))) ∧
    (∀ xs, d = .jarr xs →
      loadDues bid year mIdx ls = .ok (.jarrp xs
        [("monthlyFee", .jnum (.dec 2000 0)),
         ("startMonth", .jstr (ymStr year mIdx)),
         ("paymentsByUser", .jobj [])]) ls) ∧
    (∀ n, d = .jnum n → d.truthy = true →
      loadDues bid year mIdx ls = .ok d ls) ∧
    (∀ s, d = .jstr s → d.truthy = true →
      loadDues bid year mIdx ls = .ok d ls) ∧
    (d = .jbool true → loadDues bid year mIdx ls = .ok d ls) := by
  have hload : loadFromStorage (kDues bid) .jnull (duesSeed (ymStr year mIdx)) ls =
      .ok (if d.isNull then .jnull else d) ls := by
    by_cases hv : d.isNull <;>
      simp [loadFromStorage, hstored, rawFalsy, hne, hparse, hv]
  refine ⟨?_, ?_, ?_, ?_, ?_, ?_⟩
  · intro hf
    by_cases hv : d.isNull = true
    · simp [loadDues, hload, hv, JVal.truthy]
    · rw [Bool.not_eq_true] at hv
      simp [loadDues, hload, hv, hf]
  · rintro fs rfl
    have hD : loadDues bid year mIdx ls =
        .ok (normalizeDues (.jobj fs) (ymStr year mIdx)) ls := by
      simp [loadDues, hload, JVal.isNull, JVal.truthy]
    simp only [normalizeDues, jsGet, jsSet] at hD
    refine ⟨_, hD, ?_, ?_, ?_⟩
    · refine ⟨?_, ?_, ?_, ?_⟩
      · exact (nullish (objGet fs "monthlyFee") (.jnum (.dec 2000 0))).toNumber
      · rw [objGet_objSet_ne _ _ _ _ (by decide), objGet_objSet_ne _ _ _ _ (by decide),
          objGet_objSet_self]
      · rintro (h | h) <;> simp [h, nullish, JVal.toNumber]
      · intro w hw hwn
        rw [hw]
        cases w <;> first | rfl | simp [JVal.isNull] at hwn
    · refine ⟨?_, ?_, ?_, ?_⟩
      · exact match objGet (objSet fs "monthlyFee"
          (.jnum (nullish (objGet fs "monthlyFee") (.jnum (.dec 2000 0))).toNumber))
            "startMonth" with
        | some v => if v.truthy then String.mk v.toStr else ymStr year mIdx
        | none => ymStr year mIdx
      · rw [objGet_objSet_ne _ _ _ _ (by decide), objGet_objSet_self]
      · intro hf
        rw [objGet_objSet_ne _ _ _ _ (by decide)]
        cases hw : objGet fs "startMonth" with
        | none => rfl
        | some w => simp [hf w hw]
      · intro w hw ht
        rw [objGet_objSet_ne _ _ _ _ (by decide), hw]
        simp [ht]
    · refine ⟨?_, ?_, ?_, ?_⟩
      · exact match objGet (objSet (objSet fs "monthlyFee"
          (.jnum (nullish (objGet fs "monthlyFee") (.jnum (.dec 2000 0))).toNumber))
            "startMonth"
            (.jstr (match objGet (objSet fs "monthlyFee"
              (.jnum (nullish (objGet fs "monthlyFee") (.jnum (.dec 2000 0))).toNumber))
                "startMonth" with
              | some v => if v.truthy then String.mk v.toStr else ymStr year mIdx
              | none => ymStr year mIdx))) "paymentsByUser" with
        | some v => if v.truthy then v else .jobj []
        | none => .jobj []
      · rw [objGet_objSet_self]
      · intro hf
        rw [objGet_objSet_ne _ _ _ _ (by decide), objGet_objSet_ne _ _ _ _ (by decide)]
        cases hw : objGet fs "paymentsByUser" with
        | none => rfl
        | some w => simp [hf w hw]
      · intro w hw ht
        rw [objGet_objSet_ne _ _ _ _ (by decide), objGet_objSet_ne _ _ _ _ (by decide), hw]
        simp [ht]
  · rintro xs rfl
    have hD : loadDues bid year mIdx ls =
        .ok (normalizeDues (.jarr xs) (ymStr year mIdx)) ls := by
      simp [loadDues, hload, JVal.isNull, JVal.truthy]
    rw [hD]
    rfl
  · rintro n rfl htr
    have hD : loadDues bid year mIdx ls =
        .ok (normalizeDues (.jnum n) (ymStr year mIdx)) ls := by
      simp [loadDues, hload, JVal.isNull, htr]
    rw [hD]
    rfl
  · rintro s rfl htr
    have hD : loadDues bid year mIdx ls =
        .ok (normalizeDues (.jstr s) (ymStr year mIdx)) ls := by
      simp [loadDues, hload, JVal.isNull, htr]
    rw [hD]
    rfl
  · rintro rfl
    have hD : loadDues bid year mIdx ls =
        .ok (normalizeDues (.jbool true) (ymStr year mIdx)) ls := by
      simp [loadDues, hload, JVal.isNull, JVal.truthy]
    rw [hD]
    rfl

/-- Witness for C2 on the spec's example — stored
`\x7b"paymentsByUser":\x7b"u1":100\x7d\x7d` yields the record with
`monthlyFee` 2000, `startMonth` the current year-month, and the stored
payments map — and on the array payload `[5]`, which gets the three
default fields attached as named properties. -/
theorem c2_witness :
    (lsOne (kDues "b1") "\x7b\"paymentsByUser\":\x7b\"u1\":100\x7d\x7d").store (kDues "b1") =
      some "\x7b\"paymentsByUser\":\x7b\"u1\":100\x7d\x7d" ∧
    ("\x7b\"paymentsByUser\":\x7b\"u1\":100\x7d\x7d" : String).isEmpty = false ∧
    parseS "\x7b\"paymentsByUser\":\x7b\"u1\":100\x7d\x7d" =
      some (.jobj [("paymentsByUser", .jobj [("u1", .jnum (.dec 100 0))])]) ∧
    (∃ fs',
      loadDues "b1" 2026 9 (lsOne (kDues "b1") "\x7b\"paymentsByUser\":\x7b\"u1\":100\x7d\x7d") =
        .ok (.jobj fs') (lsOne (kDues "b1") "\x7b\"paymentsByUser\":\x7b\"u1\":100\x7d\x7d") ∧
      (∃ n : JNum, objGet fs' "monthlyFee" = some (.jnum n) ∧
        ((objGet [(("paymentsByUser" : String), JVal.jobj [("u1", .jnum (.dec 100 0))])]
            "monthlyFee" = none ∨
          objGet [(("paymentsByUser" : String), JVal.jobj [("u1", .jnum (.dec 100 0))])]
            "monthlyFee" = some .jnull) →
          n = .dec 2000 0) ∧
        (∀ w, objGet [(("paymentsByUser" : String), JVal.jobj [("u1", .jnum (.dec 100 0))])]
            "monthlyFee" = some w → w.isNull = false → n = w.toNumber)) ∧
      (∃ s : String, objGet fs' "startMonth" = some (.jstr s) ∧
        ((∀ w, objGet [(("paymentsByUser" : String), JVal.jobj [("u1", .jnum (.dec 100 0))])]
            "startMonth" = some w → w.truthy = false) →
          s = ymStr 2026 9) ∧
        (∀ w, objGet [(("paymentsByUser" : String), JVal.jobj [("u1", .jnum (.dec 100 0))])]
            "startMonth" = some w → w.truthy = true → s = String.mk w.toStr)) ∧
      (∃ p : JVal, objGet fs' "paymentsByUser" = some p ∧
        ((∀ w, objGet [(("paymentsByUser" : String), JVal.jobj [("u1", .jnum (.dec 100 0))])]
            "paymentsByUser" = some w → w.truthy = false) →
          p = .jobj []) ∧
        (∀ w, objGet [(("paymentsByUser" : String), JVal.jobj [("u1", .jnum (.dec 100 0))])]
            "paymentsByUser" = some w → w.truthy = true → p = w))) ∧
    (loadDues "b1" 2026 9 (lsOne (kDues "b1") "\x7b\"paymentsByUser\":\x7b\"u1\":100\x7d\x7d")).val =
      some (.jobj [("paymentsByUser", .jobj [("u1", .jnum (.dec 100 0))]),
                   ("monthlyFee", .jnum (.dec 2000 0)), ("startMonth", .jstr "2026-10")]) ∧
    (lsOne (kDues "b1") "[5]").store (kDues "b1") = some "[5]" ∧
    ("[5]" : String).isEmpty = false ∧
    parseS "[5]" = some (.jarr [.jnum (.dec 5 0)]) ∧
    loadDues "b1" 2026 9 (lsOne (kDues "b1") "[5]") =
      .ok (.jarrp [.jnum (.dec 5 0)]
        [("monthlyFee", .jnum (.dec 2000 0)),
         ("startMonth", .jstr (ymStr 2026 9)),
         ("paymentsByUser", .jobj [])]) (lsOne (kDues "b1") "[5]") :=
  ⟨rfl, rfl, rfl,
   (c2_dues_normalization "b1" 2026 9
     (lsOne (kDues "b1") "\x7b\"paymentsByUser\":\x7b\"u1\":100\x7d\x7d")
     "\x7b\"paymentsByUser\":\x7b\"u1\":100\x7d\x7d"
     (.jobj [("paymentsByUser", .jobj [("u1", .jnum (.dec 100 0))])])
     rfl rfl rfl).2.1
     [("paymentsByUser", .jobj [("u1", .jnum (.dec 100 0))])] rfl,
   rfl, rfl, rfl, rfl,
   (c2_dues_normalization "b1" 2026 9 (lsOne (kDues "b1") "[5]") "[5]"
     (.jarr [.jnum (.dec 5 0)]) rfl rfl rfl).2.2.1 [.jnum (.dec 5 0)] rfl⟩

/-- The fueled digit extractor agrees with `Nat.digits 10`. -/
theorem natDigitsAux_eq : ∀ f n, n ≤ f → natDigitsAux f n = Nat.digits 10 n := by
  intro f
  induction f with
  | zero =>
    intro n hn
    interval_cases n
    simp [natDigitsAux]
  | succ f ih =>
    intro n hn
    cases n with
    | zero => simp [natDigitsAux]
    | succ n =>
      have hstep : natDigitsAux (f + 1) (n + 1) =
          (n + 1) % 10 :: natDigitsAux f ((n + 1) / 10) := rfl
      rw [hstep, Nat.digits_def' (b := 10) (by norm_num) (Nat.succ_pos n),
        ih _ (by omega)]

/-- `natDigitsL` agrees with `Nat.digits 10`. -/
theorem natDigitsL_eq (n : Nat) : natDigitsL n = Nat.digits 10 n :=
  natDigitsAux_eq n n le_rfl

/-- Digit characters produced for digits below 10 read back correctly. -/
theorem toNat_digit_char (d : Nat) (hd : d < 10) :
    (Char.ofNat (48 + d)).toNat = 48 + d := by
  interval_cases d <;> rfl

/-- Every character of `natChars n` is a decimal digit. -/
theorem natChars_digits (n : Nat) : ∀ c ∈ natChars n, isDigitChar c = true := by
  intro c hc
  unfold natChars at hc
  by_cases hn : n = 0
  · simp [hn] at hc
    simp [hc, isDigitChar]
  · simp only [hn, if_false, List.mem_reverse, List.mem_map, natDigitsL_eq] at hc
    obtain ⟨d, hd, rfl⟩ := hc
    have hlt : d < 10 := Nat.digits_lt_base (by norm_num) hd
    simp [isDigitChar, toNat_digit_char d hlt]
    omega

/-- `natChars` is never empty. -/
theorem natChars_ne_nil (n : Nat) : natChars n ≠ [] := by
  unfold natChars
  by_cases hn : n = 0
  · simp [hn]
  · simp only [hn, if_false]
    intro h
    apply hn
    have h2 : natDigitsL n = [] := by
      have h3 := congrArg List.length h
      simpa using h3
    rw [natDigitsL_eq] at h2
    exact Nat.digits_eq_nil_iff_eq_zero.mp h2

/-- For nonzero `n` the leading digit character is not `'0'`. -/
theorem natChars_headI_ne_zero (n : Nat) (hn : n ≠ 0) : (natChars n).headI ≠ '0' := by
  unfold natChars
  simp only [hn, if_false]
  have hnil : Nat.digits 10 n ≠ [] :=
    fun h => hn (Nat.digits_eq_nil_iff_eq_zero.mp h)
  have hlast := Nat.getLast_digit_ne_zero 10 hn
  rw [natDigitsL_eq]
  rw [← List.map_reverse]
  cases hrev : (Nat.digits 10 n).reverse with
  | nil => simp [List.reverse_eq_nil_iff] at hrev; exact absurd hrev hnil
  | cons d ds =>
    have hdmem : d ∈ Nat.digits 10 n := by
      have : d ∈ (Nat.digits 10 n).reverse := by rw [hrev]; exact List.mem_cons_self _ _
      simpa using this
    have hd10 : d < 10 := Nat.digits_lt_base (by norm_num) hdmem
    have hdlast : d = (Nat.digits 10 n).getLast hnil := by
      have h4 := List.head?_reverse (Nat.digits 10 n)
      rw [hrev] at h4
      simp at h4
      have h5 : (Nat.digits 10 n).getLast? = some ((Nat.digits 10 n).getLast hnil) :=
        List.getLast?_eq_getLast _ hnil
      rw [h5] at h4
      exact Option.some.inj h4
    have hdne : d ≠ 0 := by rw [hdlast]; exact hlast
    simp only [List.map_cons, List.headI]
    intro h
    have := congrArg Char.toNat h
    rw [toNat_digit_char d hd10] at this
    simp at this
    omega

/-- `foldl` digit accumulation from an arbitrary seed. -/
theorem digitsVal_foldl_from (l : List Char) : ∀ a : Nat,
    l.foldl (fun acc c => 10 * acc + (c.toNat - 48)) a =
      a * 10 ^ l.length + digitsVal l := by
  induction l with
  | nil => intro a; simp [digitsVal]
  | cons c l ih =>
    intro a
    unfold digitsVal
    simp only [List.foldl_cons, List.length_cons]
    rw [ih (10 * a + (c.toNat - 48)), ih (10 * 0 + (c.toNat - 48))]
    unfold digitsVal
    ring

/-- Digit value of an append. -/
theorem digitsVal_append (l1 l2 : List Char) :
    digitsVal (l1 ++ l2) = digitsVal l1 * 10 ^ l2.length + digitsVal l2 := by
  unfold digitsVal
  rw [List.foldl_append]
  exact digitsVal_foldl_from l2 _

/-- Leading zero characters do not change the digit value. -/
theorem digitsVal_replicate_zero (k : Nat) (l : List Char) :
    digitsVal (List.replicate k '0' ++ l) = digitsVal l := by
  rw [digitsVal_append]
  have h : digitsVal (List.replicate k '0') = 0 := by
    induction k with
    | zero => rfl
    | succ k ih =>
      rw [List.replicate_succ]
      unfold digitsVal at ih ⊢
      simpa using ih
  simp [h]

/-- `digitsVal` inverts the digit printing of `natChars`. -/
theorem digitsVal_natChars (n : Nat) : digitsVal (natChars n) = n := by
  unfold natChars
  by_cases hn : n = 0
  · simp [hn]; rfl
  · simp only [hn, if_false, natDigitsL_eq]
    have hgen : ∀ ds : List Nat, (∀ d ∈ ds, d < 10) →
        digitsVal ((ds.map fun d => Char.ofNat (48 + d)).reverse) = Nat.ofDigits 10 ds := by
      intro ds
      induction ds with
      | nil => intro _; rfl
      | cons d ds ih =>
        intro hlt
        rw [List.map_cons, List.reverse_cons, digitsVal_append]
        rw [ih fun x hx => hlt x (List.mem_cons_of_mem _ hx)]
        have hd := hlt d (List.mem_cons_self _ _)
        have h1 : digitsVal [Char.ofNat (48 + d)] = d := by
          unfold digitsVal
          simp [toNat_digit_char d hd]
        rw [h1, Nat.ofDigits_cons]
        simp
        ring
    rw [hgen _ fun d hd => Nat.digits_lt_base (by norm_num) hd, Nat.ofDigits_digits]

/-- `spanDigits` splits off exactly a leading all-digit block. -/
theorem spanDigits_exact : ∀ (ds rest : List Char),
    (∀ c ∈ ds, isDigitChar c = true) →
    (∀ c l, rest = c :: l → isDigitChar c = false) →
    spanDigits (ds ++ rest) = (ds, rest) := by
  intro ds
  induction ds with
  | nil =>
    intro rest _ hr
    cases rest with
    | nil => rfl
    | cons c l => simp [spanDigits, hr c l rfl]
  | cons d ds ih =>
    intro rest hds hr
    have hd := hds d (List.mem_cons_self _ _)
    have hrec := ih rest (fun c hc => hds c (List.mem_cons_of_mem _ hc)) hr
    simp [spanDigits, hd, hrec]

/-- What may follow a printed value can never continue a number. -/
theorem jsonStop_cons_props (rest : List Char) (h : jsonStop rest = true) :
    ∀ c l, rest = c :: l →
      isDigitChar c = false ∧ c ≠ '.' ∧ c ≠ 'e' ∧ c ≠ 'E' := by
  intro c l hrl
  subst hrl
  simp only [jsonStop, Bool.or_eq_true, decide_eq_true_eq] at h
  rcases h with (h | h) | h <;> subst h <;>
    exact ⟨by decide, by decide, by decide, by decide⟩

/-- The head of a nonempty prefix is the head of the list. -/
theorem headI_take (l : List Char) (k : Nat) (hk : 0 < k) :
    (l.take k).headI = l.headI := by
  cases l with
  | nil => simp
  | cons a l =>
    cases k with
    | zero => omega
    | succ k => simp


/-- `parseNum` inverts the decimal printer, leaving a non-number-like
remainder untouched. -/
theorem parseNum_decChars (m : Int) (e : Nat) (rest : List Char)
    (hstop : jsonStop rest = true) :
    parseNum (decChars m e ++ rest) = some (.dec m e, rest) := by
  have hrstop := jsonStop_cons_props rest hstop
  have hrd : ∀ c l, rest = c :: l → isDigitChar c = false :=
    fun c l h => (hrstop c l h).1
  set ds := natChars m.natAbs with hds
  have hdsdig : ∀ c ∈ ds, isDigitChar c = true := natChars_digits _
  have hdsne : ds ≠ [] := natChars_ne_nil _
  have hdsl : 1 ≤ ds.length := List.length_pos.mpr hdsne
  by_cases he : e = 0
  · subst he
    have hdec : decChars m 0 = (if m < 0 then ['-'] else []) ++ ds := by
      simp [decChars, ← hds]
    have hspan : spanDigits (ds ++ rest) = (ds, rest) := spanDigits_exact ds rest hdsdig hrd
    have hlz : ¬(ds.length > 1 ∧ ds.headI = '0') := by
      rintro ⟨hl, h0⟩
      have hne0 : m.natAbs ≠ 0 := by
        intro h0'
        rw [hds, h0'] at hl
        simp [natChars] at hl
      exact natChars_headI_ne_zero _ hne0 h0
    by_cases hm : m < 0
    · have hval : -(digitsVal ds : Int) = m := by
        rw [hds, digitsVal_natChars]
        omega
    
      rw [hdec]
      simp only [hm, if_true, List.cons_append, List.nil_append]
      simp only [parseNum, if_true]
      rw [hspan]
      simp only [hdsne, hlz, if_false]
      cases hr : rest with
      | nil => simp [hval]
      | cons c l =>
        obtain ⟨hcd, hcdot, hce, hcE⟩ := hrstop c l hr
        simp [hval, hcdot, hce, hcE]
    · have hval : (digitsVal ds : Int) = m := by
        rw [hds, digitsVal_natChars]
        omega
      obtain ⟨d, ds', hds'⟩ := List.exists_cons_of_ne_nil hdsne
      have hddig : isDigitChar d = true :=
        hdsdig d (by rw [hds']; exact List.mem_cons_self _ _)
      have hdnotdash : ¬ d = '-' := by
        intro h
        subst h
        simp [isDigitChar] at hddig
      rw [hdec]
      simp only [hm, if_false, List.nil_append]
      rw [hds']
      simp only [List.cons_append, parseNum, hdnotdash, if_false]
      rw [← List.cons_append, ← hds', hspan]
      simp only [hdsne, hlz, if_false]
      cases hr : rest with
      | nil => simp [hval]
      | cons c l =>
        obtain ⟨hcd, hcdot, hce, hcE⟩ := hrstop c l hr
        simp [hval, hcdot, hce, hcE]
  · have hel : 1 ≤ e := Nat.one_le_iff_ne_zero.mpr he
    set ds' := List.replicate (e + 1 - ds.length) '0' ++ ds with hdsPd
    have hds'dig : ∀ c ∈ ds', isDigitChar c = true := by
      intro c hc
      rw [hdsPd] at hc
      rcases List.mem_append.mp hc with hc | hc
      · rw [List.eq_of_mem_replicate hc]
        decide
      · exact hdsdig c hc
    have hlen' : ds'.length = e + 1 - ds.length + ds.length := by
      simp [hdsPd]
    have hlen'ge : e + 1 ≤ ds'.length := by omega
    set ip := ds'.take (ds'.length - e) with hipdef
    set fp := ds'.drop (ds'.length - e) with hfpdef
    have hipfp : ip ++ fp = ds' := List.take_append_drop _ _
    have hiplen : ip.length = ds'.length - e := by
      rw [hipdef, List.length_take]
      omega
    have hfplen : fp.length = e := by
      rw [hfpdef, List.length_drop]
      omega
    have hipne : ip ≠ [] := by
      intro h
      have h2 := congrArg List.length h
      rw [hiplen] at h2
      simp at h2
      omega
    have hfpne : fp ≠ [] := by
      intro h
      have h2 := congrArg List.length h
      rw [hfplen] at h2
      simp at h2
      omega
    have hipdig : ∀ c ∈ ip, isDigitChar c = true :=
      fun c hc => hds'dig c (List.take_subset _ _ hc)
    have hfpdig : ∀ c ∈ fp, isDigitChar c = true :=
      fun c hc => hds'dig c (List.drop_subset _ _ hc)
    have hdec2 : decChars m e = (if m < 0 then ['-'] else []) ++ ip ++ '.' :: fp := by
      simp only [decChars, he, if_false]
    have hlzip : ¬(ip.length > 1 ∧ ip.headI = '0') := by
      rintro ⟨hl, h0⟩
      have hdsl2 : e + 1 < ds.length := by
        rw [hiplen] at hl
        omega
      have hpad0 : e + 1 - ds.length = 0 := by omega
      have hds'eq : ds' = ds := by rw [hdsPd, hpad0]; simp
      have hne0 : m.natAbs ≠ 0 := by
        intro h0'
        rw [hds, h0'] at hdsl2
        simp [natChars] at hdsl2
      apply natChars_headI_ne_zero _ hne0
      rw [← hds]
      rw [hipdef, hds'eq] at h0
      rwa [headI_take _ _ (by omega)] at h0
    have hspan1 : spanDigits (ip ++ '.' :: (fp ++ rest)) = (ip, '.' :: (fp ++ rest)) :=
      spanDigits_exact ip _ hipdig
        (by intro c l h; injection h with h1 _; subst h1; decide)
    have hspan2 : spanDigits (fp ++ rest) = (fp, rest) :=
      spanDigits_exact fp rest hfpdig hrd
    have hval' : digitsVal ip * 10 ^ fp.length + digitsVal fp = m.natAbs := by
      rw [← digitsVal_append, hipfp, hdsPd, digitsVal_replicate_zero, hds,
        digitsVal_natChars]
    have hval2 : digitsVal ip * 10 ^ e + digitsVal fp = m.natAbs := by
      rw [← hfplen]
      exact hval'
    by_cases hm : m < 0
    · rw [hdec2]
      simp only [hm, if_true, List.cons_append, List.nil_append, List.append_assoc]
      simp only [parseNum, if_true]
      rw [hspan1]
      simp only [hipne, hlzip, if_false]
      have hA : -((digitsVal ip * 10 ^ fp.length + digitsVal fp : Nat) : Int) = m := by
        rw [hval']
        omega
      have hB : -((digitsVal ip * 10 ^ e + digitsVal fp : Nat) : Int) = m := by
        rw [hval2]
        omega
      simp only [if_true]
      rw [hspan2]
      simp only [hfpne, if_false]
      cases hr : rest with
      | nil =>
        simp [hA, hB, hfplen]
        all_goals (push_cast at hB ⊢; linarith)
      | cons c l =>
        obtain ⟨hcd, hcdot, hce, hcE⟩ := hrstop c l hr
        simp [hA, hB, hfplen, hcdot, hce, hcE]
        all_goals (push_cast at hB ⊢; linarith)
    · obtain ⟨d, ip', hip'⟩ := List.exists_cons_of_ne_nil hipne
      have hddig : isDigitChar d = true :=
        hipdig d (by rw [hip']; exact List.mem_cons_self _ _)
      have hdnotdash : ¬ d = '-' := by
        intro h
        subst h
        simp [isDigitChar] at hddig
      rw [hdec2]
      simp only [hm, if_false, List.nil_append, List.append_assoc]
      rw [hip']
      simp only [List.cons_append, parseNum, hdnotdash, if_false]
      rw [← List.cons_append, ← hip', hspan1]
      simp only [hipne, hlzip, if_false]
      have hA : ((digitsVal ip * 10 ^ fp.length + digitsVal fp : Nat) : Int) = m := by
        rw [hval']
        omega
      have hB : ((digitsVal ip * 10 ^ e + digitsVal fp : Nat) : Int) = m := by
        rw [hval2]
        omega
      simp only [if_true]
      rw [hspan2]
      simp only [hfpne, if_false]
      cases hr : rest with
      | nil =>
        simp [hA, hB, hfplen]
      | cons c l =>
        obtain ⟨hcd, hcdot, hce, hcE⟩ := hrstop c l hr
        simp [hA, hB, hfplen, hcdot, hce, hcE]

/-- Hex digits round-trip for values below 16. -/
theorem hexVal_hexDig (d : Nat) (hd : d < 16) : hexVal (hexDig d) = some d := by
  interval_cases d <;> rfl

/-- The JSON string-body parser inverts `escStr` escaping. -/
theorem parseStrBody_escStr : ∀ (s rest : List Char),
    parseStrBody (escStr s ++ '"' :: rest) = some (s, rest) := by
  intro s
  induction s with
  | nil =>
    intro rest
    rw [show escStr [] ++ '"' :: rest = '"' :: rest from rfl, parseStrBody.eq_def]
    simp
  | cons c s ih =>
    intro rest
    show parseStrBody ((escChar c ++ escStr s) ++ '"' :: rest) = _
    rw [List.append_assoc]
    by_cases h1 : c = '"'
    · subst h1
      simp [escChar]
      rw [parseStrBody.eq_def]
      simp [ih]
    · by_cases h2 : c = '\\'
      · subst h2
        simp [escChar]
        rw [parseStrBody.eq_def]
        simp [ih]
      · by_cases h3 : c = Char.ofNat 8
        · subst h3
          simp [escChar]
          rw [parseStrBody.eq_def]
          simp [ih]
        · by_cases h4 : c = '\t'
          · subst h4
            simp [escChar]
            rw [parseStrBody.eq_def]
            simp [ih]
          · by_cases h5 : c = '\n'
            · subst h5
              simp [escChar]
              rw [parseStrBody.eq_def]
              simp [ih]
            · by_cases h6 : c = Char.ofNat 12
              · subst h6
                simp [escChar]
                rw [parseStrBody.eq_def]
                simp [ih]
              · by_cases h7 : c = '\r'
                · subst h7
                  simp [escChar]
                  rw [parseStrBody.eq_def]
                  simp [ih]
                · by_cases h8 : c.toNat < 32
                  · have hdiv : c.toNat / 16 < 16 := by omega
                    have hmod : c.toNat % 16 < 16 := by omega
                    have hzero : hexVal '0' = some 0 := rfl
                    simp [escChar, h1, h2, h3, h4, h5, h6, h7, h8]
                    rw [parseStrBody.eq_def]
                    simp [hzero, hexVal_hexDig _ hdiv, hexVal_hexDig _ hmod, ih]
                    rw [show c.toNat / 16 * 16 + c.toNat % 16 = c.toNat from by omega,
                      Char.ofNat_toNat]
                  · simp only [escChar, h1, h2, h3, h4, h5, h6, h7, h8, if_false,
                      List.cons_append, List.nil_append]
                    rw [parseStrBody.eq_def]
                    simp [h1, h2, h8, ih]

/-- A printed decimal starts with a minus sign or a digit. -/
theorem decChars_shape (m : Int) (e : Nat) :
    ∃ c l, decChars m e = c :: l ∧ (c = '-' ∨ isDigitChar c = true) := by
  have hds := natChars_ne_nil m.natAbs
  obtain ⟨d0, ds0, hds0⟩ := List.exists_cons_of_ne_nil hds
  have hd0 : isDigitChar d0 = true :=
    natChars_digits _ d0 (by rw [hds0]; exact List.mem_cons_self _ _)
  by_cases he : e = 0
  · subst he
    by_cases hm : m < 0
    · exact ⟨'-', natChars m.natAbs, by simp [decChars, hm], Or.inl rfl⟩
    · exact ⟨d0, ds0, by simp [decChars, hm, hds0], Or.inr hd0⟩
  · have hdsl : 1 ≤ (natChars m.natAbs).length := List.length_pos.mpr hds
    set L := List.replicate (e + 1 - (natChars m.natAbs).length) '0' ++ natChars m.natAbs
      with hL
    have hLlen : L.length = (e + 1 - (natChars m.natAbs).length) + (natChars m.natAbs).length := by
      simp [hL]
    have hLdig : ∀ c ∈ L, isDigitChar c = true := by
      intro c hc
      rcases List.mem_append.mp hc with hc | hc
      · rw [List.eq_of_mem_replicate hc]
        decide
      · exact natChars_digits _ c hc
    have htpos : 0 < L.length - e := by omega
    have htake : (L.take (L.length - e)).length = L.length - e := by
      rw [List.length_take]
      omega
    have htne : L.take (L.length - e) ≠ [] := by
      intro h
      rw [h] at htake
      simp at htake
      omega
    obtain ⟨c1, t1, ht1⟩ := List.exists_cons_of_ne_nil htne
    have hc1 : isDigitChar c1 = true := by
      apply hLdig
      apply List.take_subset (L.length - e)
      rw [ht1]
      exact List.mem_cons_self _ _
    by_cases hm : m < 0
    · refine ⟨'-', L.take (L.length - e) ++ '.' :: L.drop (L.length - e), ?_, Or.inl rfl⟩
      simp [decChars, he, hm, ← hL]
    · refine ⟨c1, t1 ++ '.' :: L.drop (L.length - e), ?_, Or.inr hc1⟩
      simp [decChars, he, hm, ← hL, ht1]

/-- A printed JSON value starts with a value-start character. -/
theorem jsonChars_shape : ∀ v : JVal, ∃ c l, jsonChars v = c :: l ∧ valStart c = true := by
  intro v
  cases v with
  | jnull => exact ⟨'n', ['u', 'l', 'l'], rfl, by decide⟩
  | jbool b =>
    cases b
    · exact ⟨'f', ['a', 'l', 's', 'e'], rfl, by decide⟩
    · exact ⟨'t', ['r', 'u', 'e'], rfl, by decide⟩
  | jnum n =>
    cases n with
    | nan => exact ⟨'n', ['u', 'l', 'l'], rfl, by decide⟩
    | inf b => exact ⟨'n', ['u', 'l', 'l'], rfl, by decide⟩
    | dec m e =>
      obtain ⟨c, l, hcl, hc⟩ := decChars_shape m e
      refine ⟨c, l, by simp [jsonChars, numJson, hcl], ?_⟩
      rcases hc with rfl | hd
      · decide
      · simp [valStart, hd]
  | jstr s => exact ⟨'"', escStr s.data ++ ['"'], rfl, by decide⟩
  | jarr xs =>
    cases xs with
    | nil => exact ⟨'[', [']'], rfl, by decide⟩
    | cons x xs =>
      exact ⟨'[', jsonChars x ++ jsonTail xs, by simp [jsonChars], by decide⟩
  | jobj fs =>
    cases fs with
    | nil => exact ⟨'\x7b', ['\x7d'], rfl, by decide⟩
    | cons kv fs =>
      obtain ⟨k, v⟩ := kv
      exact ⟨'\x7b', quoteStr k ++ ':' :: jsonChars v ++ jsonObjTail fs,
        by simp [jsonChars], by decide⟩
  | jarrp xs ps =>
    cases xs with
    | nil => exact ⟨'[', [']'], rfl, by decide⟩
    | cons x xs =>
      exact ⟨'[', jsonChars x ++ jsonTail xs, by simp [jsonChars], by decide⟩

/-- Value-start characters are not whitespace, closers, or separators. -/
theorem valStart_facts (c : Char) (h : valStart c = true) :
    wsChar c = false ∧ c ≠ ']' ∧ c ≠ '\x7d' ∧ c ≠ ',' ∧ c ≠ ':' := by
  simp only [valStart, Bool.or_eq_true, decide_eq_true_eq] at h
  rcases h with (((((((rfl | rfl) | rfl) | rfl) | rfl) | rfl) | rfl) | hd)
  · exact ⟨by decide, by decide, by decide, by decide, by decide⟩
  · exact ⟨by decide, by decide, by decide, by decide, by decide⟩
  · exact ⟨by decide, by decide, by decide, by decide, by decide⟩
  · exact ⟨by decide, by decide, by decide, by decide, by decide⟩
  · exact ⟨by decide, by decide, by decide, by decide, by decide⟩
  · exact ⟨by decide, by decide, by decide, by decide, by decide⟩
  · exact ⟨by decide, by decide, by decide, by decide, by decide⟩
  · have h1 : ¬ c = ' ' := fun hh => by subst hh; exact absurd hd (by decide)
    have h2 : ¬ c = '\t' := fun hh => by subst hh; exact absurd hd (by decide)
    have h3 : ¬ c = '\n' := fun hh => by subst hh; exact absurd hd (by decide)
    have h4 : ¬ c = '\r' := fun hh => by subst hh; exact absurd hd (by decide)
    refine ⟨by simp [wsChar, h1, h2, h3, h4], ?_, ?_, ?_, ?_⟩ <;>
      (intro hh; subst hh; exact absurd hd (by decide))

/-- An array tail begins with a comma or closing bracket. -/
theorem jsonTail_stop (xs : List JVal) (rest : List Char) :
    jsonStop (jsonTail xs ++ rest) = true := by
  cases xs <;> simp [jsonTail, jsonStop]

/-- An object tail begins with a comma or closing brace. -/
theorem jsonObjTail_stop (fs : List (String × JVal)) (rest : List Char) :
    jsonStop (jsonObjTail fs ++ rest) = true := by
  cases fs <;> simp [jsonObjTail, jsonStop]

/-- Printed array tails are nonempty. -/
theorem jsonTail_len_pos (xs : List JVal) : 1 ≤ (jsonTail xs).length := by
  cases xs <;> simp [jsonTail]

/-- Printed object tails are nonempty. -/
theorem jsonObjTail_len_pos (fs : List (String × JVal)) :
    1 ≤ (jsonObjTail fs).length := by
  cases fs with
  | nil => simp [jsonObjTail]
  | cons kv fs =>
    obtain ⟨k, v⟩ := kv
    simp [jsonObjTail]

/-- Printed values are nonempty. -/
theorem jsonChars_len_pos (v : JVal) : 1 ≤ (jsonChars v).length := by
  obtain ⟨c, l, hcl, _⟩ := jsonChars_shape v
  rw [hcl]
  simp

/-- A quoted key has at least its two quotes. -/
theorem quoteStr_len (k : String) : 2 ≤ (quoteStr k).length := by
  simp [quoteStr]

/-- Whitespace skipping leaves a non-whitespace head alone. -/
theorem skipWs_cons (c : Char) (l : List Char) (h : wsChar c = false) :
    skipWs (c :: l) = c :: l := by
  rw [skipWs.eq_def]
  simp [h]

/-- A number-start character reaches the number branch of the parser. -/
theorem numStart_dispatch (c : Char) (h : c = '-' ∨ isDigitChar c = true) :
    ¬ c = 'n' ∧ ¬ c = 't' ∧ ¬ c = 'f' ∧ ¬ c = '"' ∧ ¬ c = '[' ∧ ¬ c = '\x7b' ∧
      (c = '-' || isDigitChar c) = true ∧ wsChar c = false := by
  rcases h with rfl | hd
  · exact ⟨by decide, by decide, by decide, by decide, by decide, by decide,
      by decide, by decide⟩
  · have h1 : ¬ c = ' ' := fun hh => by subst hh; exact absurd hd (by decide)
    have h2 : ¬ c = '\t' := fun hh => by subst hh; exact absurd hd (by decide)
    have h3 : ¬ c = '\n' := fun hh => by subst hh; exact absurd hd (by decide)
    have h4 : ¬ c = '\r' := fun hh => by subst hh; exact absurd hd (by decide)
    refine ⟨?_, ?_, ?_, ?_, ?_, ?_, by simp [hd], by simp [wsChar, h1, h2, h3, h4]⟩ <;>
      (intro hh; subst hh; exact absurd hd (by decide))


/-- The JSON parser inverts the printer on serializable values (mutual induction on fuel
over values, array tails, object tails, and members). -/
theorem parse_print (fuel : Nat) :
    (∀ v rest, SerV v = true → (jsonChars v).length < fuel → jsonStop rest = true →
      parseVal fuel (jsonChars v ++ rest) = some (v, rest)) ∧
    (∀ xs rest, SerList xs = true → (jsonTail xs).length ≤ fuel → jsonStop rest = true →
      parseArrTail fuel (jsonTail xs ++ rest) = some (xs, rest)) ∧
    (∀ fs rest, SerObj fs = true → (jsonObjTail fs).length ≤ fuel → jsonStop rest = true →
      parseObjTail fuel (jsonObjTail fs ++ rest) = some (fs, rest)) ∧
    (∀ k v rest, SerV v = true → (jsonChars v).length + 1 < fuel → jsonStop rest = true →
      parseMember fuel (quoteStr k ++ ':' :: (jsonChars v ++ rest)) = some ((k, v), rest)) := by
  induction fuel with
  | zero =>
    refine ⟨?_, ?_, ?_, ?_⟩
    · intro v rest _ hlen _
      omega
    · intro xs rest _ hlen _
      have := jsonTail_len_pos xs
      omega
    · intro fs rest _ hlen _
      have := jsonObjTail_len_pos fs
      omega
    · intro k v rest _ hlen _
      omega
  | succ f ih =>
    obtain ⟨ihV, ihA, ihO, ihM⟩ := ih
    refine ⟨?_, ?_, ?_, ?_⟩
    · -- parseVal
      intro v rest hser hlen hstop
      cases v with
      | jnull =>
        rw [show jsonChars .jnull ++ rest = 'n' :: 'u' :: 'l' :: 'l' :: rest from rfl,
          parseVal.eq_2]
        simp [skipWs, wsChar]
      | jbool b =>
        cases b
        · rw [show jsonChars (.jbool false) ++ rest =
              'f' :: 'a' :: 'l' :: 's' :: 'e' :: rest from rfl, parseVal.eq_2]
          simp [skipWs, wsChar]
        · rw [show jsonChars (.jbool true) ++ rest =
              't' :: 'r' :: 'u' :: 'e' :: rest from rfl, parseVal.eq_2]
          simp [skipWs, wsChar]
      | jstr s =>
        rw [show jsonChars (.jstr s) ++ rest =
            '"' :: (escStr s.data ++ '"' :: rest) from by
          simp [jsonChars, quoteStr], parseVal.eq_2]
        rw [skipWs_cons '"' _ (by decide)]
        simp [parseStrBody_escStr]
      | jnum n =>
        cases n with
        | nan => simp [SerV, JNum.isFinite] at hser
        | inf b => simp [SerV, JNum.isFinite] at hser
        | dec m e =>
          obtain ⟨c, l, hcl, hc⟩ := decChars_shape m e
          obtain ⟨d1, d2, d3, d4, d5, d6, d7, d8⟩ := numStart_dispatch c hc
          have hj : jsonChars (.jnum (.dec m e)) = decChars m e := rfl
          rw [hj, hcl, List.cons_append, parseVal.eq_2]
          rw [skipWs_cons c (l ++ rest) d8]
          simp only [d1, d2, d3, d4, d5, d6, d7, if_false, if_true]
          rw [← List.cons_append, ← hcl, parseNum_decChars m e rest hstop]
          simp [d1, d2, d3, d4, d5, d6, d7]
      | jarr xs =>
        cases xs with
        | nil =>
          rw [show jsonChars (.jarr []) ++ rest = '[' :: ']' :: rest from rfl,
            parseVal.eq_2]
          rw [skipWs_cons '[' _ (by decide)]
          simp [skipWs, wsChar]
        | cons x xs =>
          have hser' : SerV x = true ∧ SerList xs = true := by
            simpa [SerV, SerList] using hser
          have hlen1 : (jsonChars (.jarr (x :: xs))).length =
              1 + (jsonChars x).length + (jsonTail xs).length := by
            simp [jsonChars]
            omega
          have htp := jsonTail_len_pos xs
          have hvp := jsonChars_len_pos x
          obtain ⟨c1, l1, hc1, hv1⟩ := jsonChars_shape x
          obtain ⟨hw1, hne1, _, _, _⟩ := valStart_facts c1 hv1
          rw [show jsonChars (.jarr (x :: xs)) ++ rest =
              '[' :: (jsonChars x ++ (jsonTail xs ++ rest)) from by
            simp [jsonChars], parseVal.eq_2, skipWs_cons '[' _ (by decide)]
          have hV := ihV x (jsonTail xs ++ rest) hser'.1 (by omega) (jsonTail_stop xs rest)
          rw [hc1, List.cons_append] at hV
          have hA := ihA xs rest hser'.2 (by omega) hstop
          rw [hc1, List.cons_append]
          simp [hne1, hV, hA, skipWs_cons c1 (l1 ++ (jsonTail xs ++ rest)) hw1]
      | jobj fs =>
        cases fs with
        | nil =>
          rw [show jsonChars (.jobj []) ++ rest = '{' :: '}' :: rest from rfl,
            parseVal.eq_2]
          simp [skipWs, wsChar]
        | cons kv fs =>
          obtain ⟨k, v⟩ := kv
          have hser' : SerV v = true ∧ SerObj fs = true := by
            simpa [SerV, SerObj] using hser
          have hlen1 : (jsonChars (.jobj ((k, v) :: fs))).length =
              1 + (quoteStr k).length + 1 + (jsonChars v).length +
                (jsonObjTail fs).length := by
            simp [jsonChars]
            omega
          have hqp := quoteStr_len k
          have hop := jsonObjTail_len_pos fs
          have hvp := jsonChars_len_pos v
          have hM := ihM k v (jsonObjTail fs ++ rest) hser'.1 (by omega)
            (jsonObjTail_stop fs rest)
          have hO := ihO fs rest hser'.2 (by omega) hstop
          rw [show quoteStr k ++ ':' :: (jsonChars v ++ (jsonObjTail fs ++ rest)) =
              '"' :: (escStr k.data ++
                ('"' :: (':' :: (jsonChars v ++ (jsonObjTail fs ++ rest))))) from by
            simp [quoteStr]] at hM
          rw [show jsonChars (.jobj ((k, v) :: fs)) ++ rest =
              '{' :: (quoteStr k ++
                (':' :: (jsonChars v ++ (jsonObjTail fs ++ rest)))) from by
            simp [jsonChars], parseVal.eq_2, skipWs_cons '{' _ (by decide)]
          have hsw : skipWs ('"' :: (escStr k.data ++
              ('"' :: (':' :: (jsonChars v ++ (jsonObjTail fs ++ rest)))))) =
              '"' :: (escStr k.data ++
                ('"' :: (':' :: (jsonChars v ++ (jsonObjTail fs ++ rest))))) :=
            skipWs_cons '"' _ (by decide)
          have hq : quoteStr k ++ (':' :: (jsonChars v ++ (jsonObjTail fs ++ rest))) =
              '"' :: (escStr k.data ++
                ('"' :: (':' :: (jsonChars v ++ (jsonObjTail fs ++ rest))))) := by
            simp [quoteStr]
          simp [hq, hsw, hM, hO]
      | jarrp xs ps => simp [SerV] at hser
    · -- parseArrTail
      intro xs rest hser hlen hstop
      cases xs with
      | nil =>
        rw [show jsonTail [] ++ rest = ']' :: rest from rfl, parseArrTail.eq_2]
        simp [skipWs, wsChar]
      | cons y ys =>
        have hser' : SerV y = true ∧ SerList ys = true := by
          simpa [SerList] using hser
        have hlen1 : (jsonTail (y :: ys)).length =
            1 + (jsonChars y).length + (jsonTail ys).length := by
          simp [jsonTail]
          omega
        have htp := jsonTail_len_pos ys
        have hvp := jsonChars_len_pos y
        have hV := ihV y (jsonTail ys ++ rest) hser'.1 (by omega) (jsonTail_stop ys rest)
        have hA := ihA ys rest hser'.2 (by omega) hstop
        rw [show jsonTail (y :: ys) ++ rest =
            ',' :: (jsonChars y ++ (jsonTail ys ++ rest)) from by
          simp [jsonTail], parseArrTail.eq_2, skipWs_cons ',' _ (by decide)]
        simp [hV, hA]
    · -- parseObjTail
      intro fs rest hser hlen hstop
      cases fs with
      | nil =>
        rw [show jsonObjTail [] ++ rest = '}' :: rest from rfl, parseObjTail.eq_2]
        simp [skipWs, wsChar]
      | cons kv fs =>
        obtain ⟨k, v⟩ := kv
        have hser' : SerV v = true ∧ SerObj fs = true := by
          simpa [SerObj] using hser
        have hlen1 : (jsonObjTail ((k, v) :: fs)).length =
            1 + (quoteStr k).length + 1 + (jsonChars v).length +
              (jsonObjTail fs).length := by
          simp [jsonObjTail]
          omega
        have hqp := quoteStr_len k
        have hop := jsonObjTail_len_pos fs
        have hvp := jsonChars_len_pos v
        have hM := ihM k v (jsonObjTail fs ++ rest) hser'.1 (by omega)
          (jsonObjTail_stop fs rest)
        have hO := ihO fs rest hser'.2 (by omega) hstop
        rw [show jsonObjTail ((k, v) :: fs) ++ rest =
            ',' :: (quoteStr k ++ (':' :: (jsonChars v ++ (jsonObjTail fs ++ rest)))) from by
          simp [jsonObjTail], parseObjTail.eq_2, skipWs_cons ',' _ (by decide)]
        simp [hM, hO]
    · -- parseMember
      intro k v rest hser hlen hstop
      obtain ⟨c1, l1, hc1, hv1⟩ := jsonChars_shape v
      obtain ⟨hw1, _, _, _, _⟩ := valStart_facts c1 hv1
      have hV := ihV v rest hser (by omega) hstop
      rw [show quoteStr k ++ ':' :: (jsonChars v ++ rest) =
          '"' :: (escStr k.data ++ ('"' :: (':' :: (jsonChars v ++ rest)))) from by
        simp [quoteStr], parseMember.eq_2, skipWs_cons '"' _ (by decide)]
      simp [parseStrBody_escStr, hV, skipWs, wsChar]

theorem parseS_stringifyS (v : JVal) (hser : SerV v = true) :
    parseS (stringifyS v) = some v := by
  have h := (parse_print ((jsonChars v).length + 1)).1 v [] hser (by omega) rfl
  rw [List.append_nil] at h
  unfold parseS stringifyS
  rw [show (String.mk (jsonChars v)).length = (jsonChars v).length from rfl,
    show (String.mk (jsonChars v)).data = jsonChars v from rfl, h]
  rfl

theorem stringifyS_ne_empty (v : JVal) : (stringifyS v).isEmpty = false := by
  obtain ⟨c, l, hcl, _⟩ := jsonChars_shape v
  have hmk : stringifyS v = String.mk (c :: l) := by rw [stringifyS, hcl]
  rw [hmk]
  have hne : String.mk (c :: l) ≠ "" := by
    intro h
    have h2 := congrArg String.data h
    simp at h2
  cases hie : (String.mk (c :: l)).isEmpty
  · rfl
  · exact absurd ((String.isEmpty_iff _).mp hie) hne

/-- C3 (amended): for every non-null value v that JSON.stringify
reproduces exactly — no non-finite numbers (written as `null`) and no
array-attached named properties (dropped) anywhere — a successful
saveToStorage key v writes exactly JSON.stringify v under the key, and
an immediately following loadFromStorage with any default returns v
itself without touching the backend state. Each excluded value genuinely
breaks the law, as c3_counterexample shows. -/
theorem c3_roundtrip (key : String) (v d : JVal) (ls : LS)
    (hser : SerV v = true) (hnn : v.isNull = false)
    (hsave : (saveToStorage key v ls).val = some true) :
    saveToStorage key v ls = .ok true (ls.set key (stringifyS v)) ∧
    loadFromStorage key d .jnull ((saveToStorage key v ls).state) =
      .ok v ((saveToStorage key v ls).state) := by
  have hw : ls.setThrows = false := by
    by_cases hw' : ls.setThrows = true
    · simp [saveToStorage, setItem, hw', Res.val] at hsave
    · simpa using hw'
  have hsv : saveToStorage key v ls = .ok true (ls.set key (stringifyS v)) := by
    simp [saveToStorage, setItem, hw]
  refine ⟨hsv, ?_⟩
  rw [hsv]
  have hstore : (ls.set key (stringifyS v)).store key = some (stringifyS v) := by
    simp [LS.set]
  have hne := stringifyS_ne_empty v
  have hp := parseS_stringifyS v hser
  simp [loadFromStorage, hstore, rawFalsy, hne, hp, Res.state, hnn]

theorem c3_roundtrip_witness :
    SerV (JVal.jobj [("a", .jarr [.jnum (.dec 1505 1), .jstr "x", .jbool true])]) = true ∧
    (JVal.jobj [("a", .jarr [.jnum (.dec 1505 1), .jstr "x", .jbool true])]).isNull = false ∧
    (saveToStorage "k" (JVal.jobj [("a", .jarr [.jnum (.dec 1505 1), .jstr "x", .jbool true])]) lsEmpty).val = some true ∧
    (saveToStorage "k" (JVal.jobj [("a", .jarr [.jnum (.dec 1505 1), .jstr "x", .jbool true])]) lsEmpty =
        .ok true (lsEmpty.set "k" (stringifyS (JVal.jobj [("a", .jarr [.jnum (.dec 1505 1), .jstr "x", .jbool true])]))) ∧
      loadFromStorage "k" (.jarr []) .jnull ((saveToStorage "k" (JVal.jobj [("a", .jarr [.jnum (.dec 1505 1), .jstr "x", .jbool true])]) lsEmpty).state) =
        .ok (JVal.jobj [("a", .jarr [.jnum (.dec 1505 1), .jstr "x", .jbool true])])
          ((saveToStorage "k" (JVal.jobj [("a", .jarr [.jnum (.dec 1505 1), .jstr "x", .jbool true])]) lsEmpty).state)) :=
  ⟨rfl, rfl, rfl,
    c3_roundtrip "k" (JVal.jobj [("a", .jarr [.jnum (.dec 1505 1), .jstr "x", .jbool true])]) (.jarr []) lsEmpty rfl rfl rfl⟩
